import Mathlib

/-!
Verification of the OGLight patcher (`patcher.py`).

The program is modelled by a shallow embedding:
* a Python `str` is a `PyStr`, the list of its Unicode code points;
* raw bytes are a `List Nat` of values `< 256`;
* the Python builtins `str.replace`, `str.count`, `str.find`, slicing and
  the `in` operator are implemented below with Python's exact semantics
  (left-to-right, non-overlapping scan; `find` with Python's negative-start
  clamping and `-1` failure value);
* `hashlib.sha256(...).hexdigest()` is implemented bit-for-bit (FIPS 180-4)
  over `Nat` with explicit `% 2^32` reductions;
* `bytes.decode('utf-8')` / `str.encode('utf-8')` are implemented with
  CPython's strict UTF-8 tables (overlong forms, surrogates and values
  above U+10FFFF are rejected);
* `sys.exit(1)` and an uncaught decode error are modelled as `Except.error`;
  writing the output file is modelled by the `written` field of `MainResult`.

In the string literals below the characters `'`, `{`, `}` and the backtick
are written with their hexadecimal escapes `\x27`, `\x7b`, `\x7d`, `\x60`;
tabs and newlines of the Python source are `\t` and `\n`.
-/

/-- A Python `str`: the list of its Unicode code points. -/
abbrev PyStr := List Nat

/-- Code points of a Lean string literal, used to transcribe the Python literals. -/
def pyStr (s : String) : PyStr := s.data.map Char.toNat

/-- One step of Python's count-down for `str.replace`'s optional third argument:
`none` is an absent / negative count (unlimited). -/
def decCnt : Option Nat → Option Nat
  | none => none
  | some n => some (n - 1)

/-- Worker for Python's `str.replace(old, new, cnt)`, returning the result
together with the number of replacements performed.  Python scans left to
right and replaces non-overlapping occurrences; an empty `old` matches at
every position.  `fuel` is an upper bound on the recursion depth; a fuel of
`s.length + 1` is always sufficient. -/
def pyReplaceGo (old new : PyStr) : Nat → PyStr → Option Nat → PyStr × Nat
  | 0, s, _ => (s, 0)
  | fuel+1, s, cnt =>
    if cnt = some 0 then (s, 0)
    else if old.isPrefixOf s then
      if old = [] then
        match s with
        | [] => (new, 1)
        | c :: rest =>
          let r := pyReplaceGo old new fuel rest (decCnt cnt)
          (new ++ c :: r.1, r.2 + 1)
      else
        let r := pyReplaceGo old new fuel (s.drop old.length) (decCnt cnt)
        (new ++ r.1, r.2 + 1)
    else
      match s with
      | [] => ([], 0)
      | c :: rest =>
        let r := pyReplaceGo old new fuel rest cnt
        (c :: r.1, r.2)

/-- Python's `s.replace(old, new)` / `s.replace(old, new, n)`;
`cnt = none` means no count argument (unlimited). -/
def pyReplace (s old new : PyStr) (cnt : Option Nat) : PyStr :=
  (pyReplaceGo old new (s.length + 1) s cnt).1

/-- The number of replacements performed by `pyReplace s old new cnt`. -/
def pyReplaceCount (s old new : PyStr) (cnt : Option Nat) : Nat :=
  (pyReplaceGo old new (s.length + 1) s cnt).2

/-- Worker for Python's `str.count`: non-overlapping occurrences,
scanning left to right. -/
def pyCountGo (sub : PyStr) : Nat → PyStr → Nat
  | 0, _ => 0
  | fuel+1, s =>
    if sub.isPrefixOf s then
      if sub = [] then
        match s with
        | [] => 1
        | _ :: rest => 1 + pyCountGo sub fuel rest
      else 1 + pyCountGo sub fuel (s.drop sub.length)
    else
      match s with
      | [] => 0
      | _ :: rest => pyCountGo sub fuel rest

/-- Python's `s.count(sub)`. -/
def pyCount (s sub : PyStr) : Nat := pyCountGo sub (s.length + 1) s

/-- Index of the first occurrence of `sub` in `s`, if any. -/
def pyFindIdx (s sub : PyStr) : Option Nat :=
  if sub.isPrefixOf s then some 0
  else
    match s with
    | [] => none
    | _ :: rest => (pyFindIdx rest sub).map Nat.succ

/-- Python's `s.find(sub, start)`: `-1` on failure; a negative `start` counts
from the end of the string (clamped at `0`); a `start` beyond the end fails. -/
def pyFind (s sub : PyStr) (start : Int) : Int :=
  let st : Nat := if start < 0 then ((s.length : Int) + start).toNat else start.toNat
  if st > s.length then -1
  else
    match pyFindIdx (s.drop st) sub with
    | some i => (st : Int) + i
    | none => -1

/-- Python's `sub in s` (substring test). -/
def pyContains (s sub : PyStr) : Bool := (pyFindIdx s sub).isSome

/-- Python's slice `s[a:b]` for `0 ≤ a`, `0 ≤ b` (with Python's clamping). -/
def pySlice (s : PyStr) (a b : Nat) : PyStr := (s.take b).drop a

/-- Reduce to a 32-bit word. -/
def w32 (x : Nat) : Nat := x % 4294967296

/-- 32-bit right rotation. -/
def rotr (n x : Nat) : Nat := w32 ((x >>> n) ||| (x <<< (32 - n)))

/-- Bitwise complement on 32 bits. -/
def wnot (x : Nat) : Nat := 4294967295 ^^^ x

/-- The SHA-256 round constants. -/
def shaK : List Nat :=
  [1116352408, 1899447441, 3049323471, 3921009573, 961987163, 1508970993,
   2453635748, 2870763221, 3624381080, 310598401, 607225278, 1426881987,
   1925078388, 2162078206, 2614888103, 3248222580, 3835390401, 4022224774,
   264347078, 604807628, 770255983, 1249150122, 1555081692, 1996064986,
   2554220882, 2821834349, 2952996808, 3210313671, 3336571891, 3584528711,
   113926993, 338241895, 666307205, 773529912, 1294757372, 1396182291,
   1695183700, 1986661051, 2177026350, 2456956037, 2730485921, 2820302411,
   3259730800, 3345764771, 3516065817, 3600352804, 4094571909, 275423344,
   430227734, 506948616, 659060556, 883997877, 958139571, 1322822218,
   1537002063, 1747873779, 1955562222, 2024104815, 2227730452, 2361852424,
   2428436474, 2756734187, 3204031479, 3329325298]

/-- The SHA-256 initial hash value. -/
def shaH0 : List Nat :=
  [1779033703, 3144134277, 1013904242, 2773480762, 1359893119, 2600822924,
   528734635, 1541459225]

/-- Big-endian bytes (8 of them) of the 64-bit message length in bits. -/
def lenBytes (n : Nat) : List Nat :=
  [n >>> 56 % 256, n >>> 48 % 256, n >>> 40 % 256, n >>> 32 % 256,
   n >>> 24 % 256, n >>> 16 % 256, n >>> 8 % 256, n % 256]

/-- SHA-256 padding: append `0x80`, zeros up to 56 mod 64, then the bit length. -/
def shaPad (msg : List Nat) : List Nat :=
  msg ++ 0x80 :: List.replicate ((119 - msg.length % 64) % 64) 0 ++ lenBytes (8 * msg.length)

/-- Group bytes into big-endian 32-bit words (fuel-bounded). -/
def toWordsGo : Nat → List Nat → List Nat
  | 0, _ => []
  | _+1, [] => []
  | f+1, b0 :: b1 :: b2 :: b3 :: rest =>
      (((b0 * 256 + b1) * 256 + b2) * 256 + b3) :: toWordsGo f rest
  | _+1, l => [ l.foldl (fun a b => a * 256 + b) 0 ]

/-- Bytes to big-endian 32-bit words. -/
def toWords (l : List Nat) : List Nat := toWordsGo l.length l

/-- Split into 64-byte chunks (fuel-bounded). -/
def chunks64 : Nat → List Nat → List (List Nat)
  | 0, _ => []
  | _+1, [] => []
  | f+1, l => l.take 64 :: chunks64 f (l.drop 64)

def ssig0 (x : Nat) : Nat := w32 (rotr 7 x ^^^ rotr 18 x ^^^ (x >>> 3))

def ssig1 (x : Nat) : Nat := w32 (rotr 17 x ^^^ rotr 19 x ^^^ (x >>> 10))

def bsig0 (x : Nat) : Nat := w32 (rotr 2 x ^^^ rotr 13 x ^^^ rotr 22 x)

def bsig1 (x : Nat) : Nat := w32 (rotr 6 x ^^^ rotr 11 x ^^^ rotr 25 x)

/-- Extend the 16 message-schedule words by `n` more. -/
def wExtend : List Nat → Nat → List Nat
  | w, 0 => w
  | w, n+1 =>
    wExtend (w ++ [w32 (w.getD (w.length - 16) 0 + ssig0 (w.getD (w.length - 15) 0) +
      w.getD (w.length - 7) 0 + ssig1 (w.getD (w.length - 2) 0))]) n

/-- One SHA-256 round on the state `[a,b,c,d,e,f,g,h]`. -/
def shaRound (st : List Nat) (wk : Nat) : List Nat :=
  match st with
  | [a, b, c, d, e, f, g, h] =>
    let t1 := w32 (h + bsig1 e + ((e &&& f) ^^^ (wnot e &&& g)) + wk)
    let t2 := w32 (bsig0 a + ((a &&& b) ^^^ (a &&& c) ^^^ (b &&& c)))
    [w32 (t1 + t2), a, b, c, w32 (d + t1), e, f, g]
  | _ => st

/-- Compress one 64-byte block into the running hash. -/
def shaCompress (h : List Nat) (block : List Nat) : List Nat :=
  let w := wExtend (toWords block) 48
  let st := (w.zip shaK).foldl (fun st p => shaRound st (w32 (p.1 + p.2))) h
  (h.zip st).map (fun p => w32 (p.1 + p.2))

/-- SHA-256 of a byte sequence, as the list of eight 32-bit words. -/
def sha256words (msg : List Nat) : List Nat :=
  let padded := shaPad msg
  (chunks64 padded.length padded).foldl shaCompress shaH0

/-- One lowercase hexadecimal digit. -/
def hexChar (n : Nat) : Char := "0123456789abcdef".data.getD n '0'

/-- Lowercase hexadecimal digits of one 32-bit word. -/
def wordHex (w : Nat) : List Char :=
  [hexChar (w / 268435456 % 16), hexChar (w / 16777216 % 16),
   hexChar (w / 1048576 % 16), hexChar (w / 65536 % 16),
   hexChar (w / 4096 % 16), hexChar (w / 256 % 16),
   hexChar (w / 16 % 16), hexChar (w % 16)]

/-- `hashlib.sha256(msg).hexdigest()`. -/
def sha256hex (msg : List Nat) : String := String.mk ((sha256words msg).map wordHex).flatten

/-- UTF-8 encoding of one code point. -/
def utf8EncodeChar (c : Nat) : List Nat :=
  if c < 0x80 then [c]
  else if c < 0x800 then [0xC0 + c / 64, 0x80 + c % 64]
  else if c < 0x10000 then [0xE0 + c / 4096, 0x80 + c / 64 % 64, 0x80 + c % 64]
  else [0xF0 + c / 262144, 0x80 + c / 4096 % 64, 0x80 + c / 64 % 64, 0x80 + c % 64]

/-- `str.encode('utf-8')`. -/
def utf8Encode (s : PyStr) : List Nat := (s.map utf8EncodeChar).flatten

/-- A UTF-8 continuation byte. -/
def utf8Cont (b : Nat) : Bool := 0x80 ≤ b && b ≤ 0xBF

/-- Worker for strict UTF-8 decoding (CPython's `bytes.decode('utf-8')`):
rejects overlong forms, surrogates and code points above U+10FFFF.
Any `fuel ≥` the number of bytes suffices. -/
def utf8DecodeGo : Nat → List Nat → Option PyStr
  | _, [] => some []
  | 0, _ :: _ => none
  | f+1, b0 :: rest =>
    if b0 < 0x80 then
      (utf8DecodeGo f rest).map (b0 :: ·)
    else if 0xC2 ≤ b0 && b0 ≤ 0xDF then
      match rest with
      | b1 :: rest2 =>
        if utf8Cont b1 then
          (utf8DecodeGo f rest2).map (((b0 - 0xC0) * 64 + (b1 - 0x80)) :: ·)
        else none
      | [] => none
    else if 0xE0 ≤ b0 && b0 ≤ 0xEF then
      match rest with
      | b1 :: b2 :: rest2 =>
        if (if b0 = 0xE0 then 0xA0 ≤ b1 && b1 ≤ 0xBF
            else if b0 = 0xED then 0x80 ≤ b1 && b1 ≤ 0x9F
            else utf8Cont b1) && utf8Cont b2 then
          (utf8DecodeGo f rest2).map
            (((b0 - 0xE0) * 4096 + (b1 - 0x80) * 64 + (b2 - 0x80)) :: ·)
        else none
      | _ => none
    else if 0xF0 ≤ b0 && b0 ≤ 0xF4 then
      match rest with
      | b1 :: b2 :: b3 :: rest2 =>
        if (if b0 = 0xF0 then 0x90 ≤ b1 && b1 ≤ 0xBF
            else if b0 = 0xF4 then 0x80 ≤ b1 && b1 ≤ 0x8F
            else utf8Cont b1) && utf8Cont b2 && utf8Cont b3 then
          (utf8DecodeGo f rest2).map
            (((b0 - 0xF0) * 262144 + (b1 - 0x80) * 4096 + (b2 - 0x80) * 64 + (b3 - 0x80)) :: ·)
        else none
      | _ => none
    else none

/-- `bytes.decode('utf-8')` (strict); `none` models the fatal `UnicodeDecodeError`. -/
def utf8Decode (bytes : List Nat) : Option PyStr := utf8DecodeGo bytes.length bytes

/-- `WEBSTORE_URL`-fetched content is external; only its bytes matter here. -/
def EXPECTED_SHA256 : String := "371795e1a20f04040c00fc9568b92fe536960aa115a49d406f3ae60a6405b432"

/-- `validate_sha256(content, expected_sha)`: `true` means the function returns
normally (digest equal), `false` means it prints a mismatch and `sys.exit(1)`s. -/
def validate_sha256 (content : List Nat) (expected_sha : String) : Bool :=
  sha256hex content == expected_sha

/-- ASCII lowercasing of one character. -/
def lowerChar (c : Char) : Char :=
  if 'A' ≤ c ∧ c ≤ 'Z' then Char.ofNat (c.toNat + 32) else c

/-- Modelled from the spec: "Compares computed digest to `expectedDigestHex` as
case-normalized hex strings" — the comparison relation the spec describes,
used only to compare against the code's actual comparison. -/
def spec_caseNormalizedEq (a b : String) : Bool :=
  a.data.map lowerChar == b.data.map lowerChar

/-- Patch 1 search string (line 127). -/
def pat1 : PyStr := pyStr "@name            OGLight"

/-- Patch 1 replacement (line 128). -/
def rep1 : PyStr := pyStr "@name            OGLight Ninja (CellMaster\x27s Patcher)"

/-- Patch 2 search string (line 135). -/
def pat2 : PyStr := pyStr "// @match           https://*.ogame.gameforge.com/game/*\n"

/-- Patch 2 replacement (line 136). -/
def rep2 : PyStr := pyStr "// @match           *://*/bots/*/browser/html/*?page=*\n"

/-- Patch 3 first search string (line 143). -/
def pat3a : PyStr := pyStr "// @downloadURL https://update.greasyfork.org/scripts/514909/OGLight.user.js\n"

/-- Patch 3 second search string (line 148). -/
def pat3b : PyStr := pyStr "// @updateURL https://update.greasyfork.org/scripts/514909/OGLight.meta.js\n"

/-- Patch 4 search string (line 167). -/
def pat4 : PyStr := pyStr "// ==/UserScript=="

/-- `userscript_injection` (lines 155-166), a raw Python string with tabs. -/
def userscript_injection : PyStr := pyStr
  ("// ==/UserScript==\n\n\tconst urlMatch = /browser\\/html\\/s(\\d+)-(\\w+)/.exec(window.location.href);\n\tif(!urlMatch) \x7b console.error(\x27[OGLight Ninja] Invalid URL - expected format: browser/html/sXXX-xx\x27); throw new Error(\x27Invalid OGame Ninja URL format\x27); \x7d\n\tconst universeNum = urlMatch[1];\n\tconst lang = urlMatch[2];\n\tconst UNIVERSE = \"s\" + universeNum + \"-\" + lang;\n\tconst PROTOCOL = window.location.protocol;\n\tconst HOST = window.location.host;\n\tconst PLAYER_ID = document.querySelector(\"meta[name=ogame-player-id]\").content;\n\tconst localStoragePrefix = UNIVERSE + \"-\" + PLAYER_ID + \"-\";\n")

/-- Patch 5 `getItem` search string (line 175). -/
def pat5a : PyStr := pyStr "localStorage.getItem(\x27ogl-ptreTK\x27)"

/-- Patch 5 `getItem` replacement (line 176). -/
def rep5a : PyStr := pyStr "localStorage.getItem(UNIVERSE+\x27-ogl-ptreTK\x27)"

/-- Patch 5 `setItem` search string (line 179). -/
def pat5b : PyStr := pyStr "localStorage.setItem(\x27ogl-ptreTK\x27,"

/-- Patch 5 `setItem` replacement (line 180). -/
def rep5b : PyStr := pyStr "localStorage.setItem(UNIVERSE+\x27-ogl-ptreTK\x27,"

/-- Patch 6 search string (line 186). -/
def pat6 : PyStr := pyStr "this.server.id = window.location.host.replace(/\\D/g,\x27\x27);"

/-- Patch 6 replacement (line 187). -/
def rep6 : PyStr := pyStr "this.server.id=document.querySelector(\x27head meta[name=\"ogame-universe\"]\x27).getAttribute(\x27content\x27).replace(/\\D/g,\x27\x27);"

/-- Patch 7 search string (line 194). -/
def pat7 : PyStr := pyStr "this.account.lang = /oglocale=([a-z]+);/.exec(document.cookie)[1];"

/-- Patch 7 replacement (line 195). -/
def rep7 : PyStr := pyStr "this.account.lang=lang;"

/-- Patch 8a search string (line 206). -/
def pat8a : PyStr := pyStr "let uuid = [crypto.randomUUID(), 0];"

/-- `uuid_replacement` (lines 202-205). -/
def uuid_replacement : PyStr := pyStr
  ("let uuid = [\x27xxxxxxxx-xxxx-4xxx-yxxx-xxxxxxxxxxxx\x27.replace(/[xy]/g, function(c) \x7b\n    var r = Math.random() * 16 | 0, v = c == \x27x\x27 ? r : (r & 0x3 | 0x8);\n    return v.toString(16);\n\x7d), 0];")

/-- Patch 8b search string (line 210). -/
def pat8b : PyStr := pyStr "item.uid = crypto.randomUUID();"

/-- `uid_polyfill` (line 209). -/
def uid_polyfill : PyStr := pyStr
  ("\x27xxxxxxxx-xxxx-4xxx-yxxx-xxxxxxxxxxxx\x27.replace(/[xy]/g, function(c) \x7b var r = Math.random() * 16 | 0, v = c == \x27x\x27 ? r : (r & 0x3 | 0x8); return v.toString(16); \x7d)")

/-- Patch 8b replacement, the f-string `item.uid = {uid_polyfill};` (line 211). -/
def rep8b : PyStr := pyStr "item.uid = " ++ uid_polyfill ++ pyStr ";"

/-- Patch 9 search string (line 216). -/
def pat9 : PyStr := pyStr "url:\x60https://$\x7bwindow.location.host\x7d/api/playerData.xml?id=$\x7bplayer.uid\x7d\x60,"

/-- Patch 9 replacement (line 217). -/
def rep9 : PyStr := pyStr "url:\x60$\x7bPROTOCOL\x7d//$\x7bHOST\x7d/api/s$\x7buniverseNum\x7d/$\x7blang\x7d/playerData.xml?id=$\x7bplayer.uid\x7d\x60,"

/-- Patch 10 search string (line 224). -/
def pat10 : PyStr := pyStr "url:\x60https://$\x7bwindow.location.host\x7d/api/serverData.xml\x60,"

/-- Patch 10 replacement (line 225). -/
def rep10 : PyStr := pyStr "url:\x60$\x7bPROTOCOL\x7d//$\x7bHOST\x7d/api/s$\x7buniverseNum\x7d/$\x7blang\x7d/serverData.xml\x60,"

/-- Patch 11 search string (line 232). -/
def pat11 : PyStr := pyStr "return fetch(\x60https://$\x7bwindow.location.host\x7d/api/players.xml\x60,"

/-- Patch 11 replacement (line 233). -/
def rep11 : PyStr := pyStr "return fetch(\x60$\x7bPROTOCOL\x7d//$\x7bHOST\x7d/api/s$\x7buniverseNum\x7d/$\x7blang\x7d/players.xml\x60,"

/-- Patch 12 search string (line 240). -/
def pat12 : PyStr := pyStr "$\x7bplayer.name\x7d <a href=\"https://$\x7bwindow.location.host\x7d/game/index.php?page=highscore"

/-- Patch 12 replacement (line 241). -/
def rep12 : PyStr := pyStr "$\x7bplayer.name\x7d <a href=\"$\x7bPROTOCOL\x7d//$\x7bHOST\x7d$\x7bwindow.location.pathname\x7d?page=highscore"

/-- Patch 13 search string (line 248). -/
def pat13 : PyStr := pyStr "href:\x60https://$\x7bwindow.location.host\x7d/game/index.php?page=componentOnly&component=messagedetails&messageId=$\x7bmessage.id\x7d\x60"

/-- Patch 13 replacement (line 249). -/
def rep13 : PyStr := pyStr "href:\x60$\x7bPROTOCOL\x7d//$\x7bHOST\x7d$\x7bwindow.location.pathname\x7d?page=componentOnly&component=messagedetails&messageId=$\x7bmessage.id\x7d\x60"

/-- Patch 14 search string (line 257). -/
def pat14 : PyStr := pyStr "https://$\x7bwindow.location.host\x7d/game/index.php"

/-- Patch 14 replacement (line 258). -/
def rep14 : PyStr := pyStr "$\x7bPROTOCOL\x7d//$\x7bHOST\x7d$\x7bwindow.location.pathname\x7d"

/-- `start_marker` (line 264). -/
def start_marker : PyStr := pyStr "// get the account ID in cookies"

/-- `end_marker` (line 265). -/
def end_marker : PyStr := pyStr "const accountID = cookieAccounts[cookieAccounts.length-1].replace(/\\D/g, \x27\x27);"

/-- `new_block` (lines 277-296). -/
def new_block : PyStr := pyStr
  ("// get the account ID from meta tag (OGame Ninja adaptation)\n        const accountMeta = document.querySelector(\x27head meta[name=\"ogame-player-id\"]\x27);\n\n        // validate session exists (adapted for OGame Ninja)\n        if(!accountMeta || !accountMeta.content)\n        \x7b\n            console.error(\x27[OGLight Ninja] No player ID found in meta tag - session may be invalid\x27);\n            alert(\x27Session error: Unable to retrieve player ID. Please refresh the page.\x27);\n            return;\n        \x7d\n\n        const accountID = accountMeta.getAttribute(\x27content\x27).replace(/\\D/g, \x27\x27);\n\n        // additional validation\n        if(!accountID || accountID === \x270\x27)\n        \x7b\n            console.error(\x27[OGLight Ninja] Invalid player ID:\x27, accountID);\n            alert(\x27Session error: Invalid player ID detected. Please refresh the page.\x27);\n            return;\n        \x7d")

/-- Patch 16 search string (line 307). -/
def pat16 : PyStr := pyStr "this.DBName = \x60$\x7baccountID\x7d-$\x7bwindow.location.host.split(\x27.\x27)[0]\x7d\x60;"

/-- Patch 16 replacement (line 308). -/
def rep16 : PyStr := pyStr "this.DBName = \x60$\x7baccountID\x7d-$\x7bUNIVERSE\x7d\x60;"

/-- Patch 17 first search string (line 315). -/
def pat17a : PyStr := pyStr "galaxyUp: window.location.host.split(/[-.]/)[1] == \x27fr\x27 ? \x27z\x27 : \x27w\x27,"

/-- Patch 17 first replacement (line 316). -/
def rep17a : PyStr := pyStr "galaxyUp: lang == \x27fr\x27 ? \x27z\x27 : \x27w\x27,"

/-- Patch 17 second search string (line 320). -/
def pat17b : PyStr := pyStr "galaxyLeft: window.location.host.split(/[-.]/)[1] == \x27fr\x27 ? \x27q\x27 : \x27a\x27,"

/-- Patch 17 second replacement (line 321). -/
def rep17b : PyStr := pyStr "galaxyLeft: lang == \x27fr\x27 ? \x27q\x27 : \x27a\x27,"

/-- Patch 18 search string (lines 329-335). -/
def pat18 : PyStr := pyStr
  ("        // fix beta old DB\n        if(!GM_getValue(this.DBName) && GM_getValue(window.location.host))\n        \x7b\n            GM_setValue(this.DBName, GM_getValue(window.location.host));\n            GM_deleteValue(window.location.host);\n            window.location.reload();\n        \x7d")

/-- Patch 18 replacement (lines 336-343). -/
def rep18 : PyStr := pyStr
  ("        // fix beta old DB - ADAPTED for OGame Ninja\n        const oldHost = document.querySelector(\x27meta[name=\"ogame-universe\"]\x27).getAttribute(\x27content\x27);\n        if(!GM_getValue(this.DBName) && GM_getValue(oldHost))\n        \x7b\n            GM_setValue(this.DBName, GM_getValue(oldHost));\n            GM_deleteValue(oldHost);\n            window.location.reload();\n        \x7d")

/-- `localStorage_keys` (line 350). -/
def localStorage_keys : List String :=
  ["ogl-redirect", "ogl_minipics", "ogl_menulayout", "ogl_colorblind", "ogl_sidepanelleft"]

/-- Patch 19 `getItem` search f-string for one key (line 355). -/
def p19getOld (key : String) : PyStr := pyStr ("localStorage.getItem(\x27" ++ key ++ "\x27)")

/-- Patch 19 `getItem` replacement f-string for one key (line 355). -/
def p19getNew (key : String) : PyStr := pyStr ("localStorage.getItem(UNIVERSE+\x27-" ++ key ++ "\x27)")

/-- Patch 19 `setItem` search f-string for one key (line 356). -/
def p19setOld (key : String) : PyStr := pyStr ("localStorage.setItem(\x27" ++ key ++ "\x27,")

/-- Patch 19 `setItem` replacement f-string for one key (line 356). -/
def p19setNew (key : String) : PyStr := pyStr ("localStorage.setItem(UNIVERSE+\x27-" ++ key ++ "\x27,")

/-- Patches 1-14 of `apply_patches` (lines 125-260), in source order. -/
def patches1to14 (t0 : PyStr) : PyStr :=
  let t1 := pyReplace t0 pat1 rep1 (some 1)
  let t2 := pyReplace t1 pat2 rep2 (some 1)
  let t3a := pyReplace t2 pat3a [] (some 1)
  let t3b := pyReplace t3a pat3b [] (some 1)
  let t4 := pyReplace t3b pat4 userscript_injection (some 1)
  let t5a := pyReplace t4 pat5a rep5a none
  let t5b := pyReplace t5a pat5b rep5b none
  let t6 := pyReplace t5b pat6 rep6 (some 1)
  let t7 := pyReplace t6 pat7 rep7 (some 1)
  let t8a := pyReplace t7 pat8a uuid_replacement (some 1)
  let t8b := pyReplace t8a pat8b rep8b none
  let t9 := pyReplace t8b pat9 rep9 (some 1)
  let t10 := pyReplace t9 pat10 rep10 (some 1)
  let t11 := pyReplace t10 pat11 rep11 (some 1)
  let t12 := pyReplace t11 pat12 rep12 (some 1)
  let t13 := pyReplace t12 pat13 rep13 (some 1)
  pyReplace t13 pat14 rep14 none

/-- Ways `apply_patches` can abort the run instead of returning:
an undecodable download (uncaught `UnicodeDecodeError`), the `sys.exit(1)`
at line 272 (markers not found), or the `sys.exit(1)` at line 303. -/
inductive AbortReason where
  | decodeError
  | blockMarkersNotFound
  | oldBlockNotFound
deriving DecidableEq

/-- Patch 15 (lines 262-303): find the marker-delimited block and replace it. -/
def patch15 (text : PyStr) : Except AbortReason PyStr :=
  let start_idx := pyFind text start_marker 0
  let end_idx := pyFind text end_marker start_idx
  if start_idx = -1 ∨ end_idx = -1 then .error .blockMarkersNotFound
  else
    let old_block := pySlice text start_idx.toNat (end_idx.toNat + end_marker.length)
    if pyContains text old_block then .ok (pyReplace text old_block new_block (some 1))
    else .error .oldBlockNotFound

/-- Patches 16-19 (lines 305-360), in source order; patch 19 is the loop
over `localStorage_keys`. -/
def patches16to19 (t : PyStr) : PyStr :=
  let t16 := pyReplace t pat16 rep16 (some 1)
  let t17a := pyReplace t16 pat17a rep17a (some 1)
  let t17b := pyReplace t17a pat17b rep17b (some 1)
  let t18 := pyReplace t17b pat18 rep18 (some 1)
  localStorage_keys.foldl
    (fun text key =>
      pyReplace (pyReplace text (p19getOld key) (p19getNew key) none)
        (p19setOld key) (p19setNew key) none) t18

/-- The body of `apply_patches` after decoding: patches 1-19 on the text. -/
def applyPatchesCore (t : PyStr) : Except AbortReason PyStr :=
  (patch15 (patches1to14 t)).map patches16to19

/-- `apply_patches(content)` (lines 118-364): decode, patch, encode.
`Except.error` models the run aborting (uncaught exception or `sys.exit(1)`). -/
def apply_patches (content : List Nat) : Except AbortReason (List Nat) :=
  match utf8Decode content with
  | none => .error .decodeError
  | some t => (applyPatchesCore t).map utf8Encode

/-- Outcome of `main()`: the process exit code and the bytes written to
`OUTPUT_FILE` (`none` when the run aborts before `save_file`). -/
structure MainResult where
  exitCode : Nat
  written : Option (List Nat)
deriving DecidableEq

/-- `main()` (lines 377-400) for a given downloaded `content`, with the patch
stage abstracted as `patchFn` (instantiated with `apply_patches` in `main`):
validate the digest, then patch, then write. -/
def mainWith (patchFn : List Nat → Except AbortReason (List Nat))
    (content : List Nat) : MainResult :=
  if validate_sha256 content EXPECTED_SHA256 then
    match patchFn content with
    | .ok out => ⟨0, some out⟩
    | .error _ => ⟨1, none⟩
  else ⟨1, none⟩

/-- `main()` on a downloaded `content` (named `pyMain` since Lean reserves `main`). -/
def pyMain (content : List Nat) : MainResult := mainWith apply_patches content

/-- `Except` success test (used to state that a run did not abort). -/
def isOk {ε α : Type} : Except ε α → Bool
  | .ok _ => true
  | .error _ => false

/-- `pat` occurs in `s` at position `i`. -/
def occ (pat : PyStr) (i : Nat) (s : PyStr) : Prop := pat <+: s.drop i

/-- No nonempty suffix of `a` (including `a` itself) is a prefix of `b`. -/
abbrev noSufPre (a b : PyStr) : Prop := ∀ k, k < a.length → ¬ (a.drop k) <+: b

/-- Occurrences of `P` and occurrences of `M` can never overlap in any text. -/
abbrev indep (P M : PyStr) : Prop :=
  ¬ (M <:+: P) ∧ ¬ (P <:+: M) ∧ noSufPre P M ∧ noSufPre M P

/-- `x` has no nonempty proper border: no proper nonempty suffix of `x`
is also a prefix of `x`. -/
abbrev borderFree (x : PyStr) : Prop := ∀ k, k < x.length → 0 < k → ¬ (x.drop k) <+: x

/-- Position transport along `pyReplaceGo`: the position in the output text
corresponding to input position `i` (mirrors the recursion of `pyReplaceGo`). -/
def rshiftGo (old new : PyStr) : Nat → PyStr → Option Nat → Nat → Nat
  | 0, _, _, i => i
  | fuel+1, s, cnt, i =>
    if cnt = some 0 then i
    else if old.isPrefixOf s then
      if old = [] then i
      else if i < old.length then 0
      else new.length + rshiftGo old new fuel (s.drop old.length) (decCnt cnt) (i - old.length)
    else
      match s with
      | [] => i
      | _ :: rest => if i = 0 then 0 else 1 + rshiftGo old new fuel rest cnt (i - 1)

/-- Position transport for `pyReplace`. -/
def rshift (s old new : PyStr) (cnt : Option Nat) (i : Nat) : Nat :=
  rshiftGo old new (s.length + 1) s cnt i

theorem isPre_iff (a b : PyStr) : a.isPrefixOf b = true ↔ a <+: b :=
  List.isPrefixOf_iff_prefix

theorem ne_nil_of_pre (old s : PyStr) (hne : old ≠ []) (hp : old <+: s) : s ≠ [] := by
  intro h
  subst h
  exact hne (List.prefix_nil.mp hp)

theorem pyReplaceGo_fuel (old new : PyStr) :
    ∀ f₁ f₂ s cnt, s.length < f₁ → s.length < f₂ →
      pyReplaceGo old new f₁ s cnt = pyReplaceGo old new f₂ s cnt := by
  intro f₁
  induction f₁ with
  | zero => intro f₂ s cnt h1 h2; exact absurd h1 (Nat.not_lt_zero _)
  | succ f ih =>
    intro f₂ s cnt h1 h2
    cases f₂ with
    | zero => exact absurd h2 (Nat.not_lt_zero _)
    | succ g =>
      simp only [pyReplaceGo]
      by_cases hc : cnt = some 0
      · rw [if_pos hc, if_pos hc]
      · rw [if_neg hc, if_neg hc]
        by_cases hp : old.isPrefixOf s = true
        · rw [if_pos hp, if_pos hp]
          by_cases he : old = []
          · rw [if_pos he, if_pos he]
            cases s with
            | nil => rfl
            | cons c rest =>
              have hr : rest.length < f := by
                simp only [List.length_cons] at h1; omega
              have hr2 : rest.length < g := by
                simp only [List.length_cons] at h2; omega
              simp only [ih g rest (decCnt cnt) hr hr2]
          · rw [if_neg he, if_neg he]
            have hsne : s ≠ [] := ne_nil_of_pre old s he ((isPre_iff old s).mp hp)
            have hlen : 0 < old.length := List.length_pos.mpr he
            have hslen : 0 < s.length := List.length_pos.mpr hsne
            have hd : (s.drop old.length).length < f := by
              rw [List.length_drop]; omega
            have hd2 : (s.drop old.length).length < g := by
              rw [List.length_drop]; omega
            simp only [ih g (s.drop old.length) (decCnt cnt) hd hd2]
        · rw [if_neg hp, if_neg hp]
          cases s with
          | nil => rfl
          | cons c rest =>
            have hr : rest.length < f := by simp only [List.length_cons] at h1; omega
            have hr2 : rest.length < g := by simp only [List.length_cons] at h2; omega
            simp only [ih g rest cnt hr hr2]

theorem pyCountGo_fuel (sub : PyStr) :
    ∀ f₁ f₂ s, s.length < f₁ → s.length < f₂ →
      pyCountGo sub f₁ s = pyCountGo sub f₂ s := by
  intro f₁
  induction f₁ with
  | zero => intro f₂ s h1 h2; exact absurd h1 (Nat.not_lt_zero _)
  | succ f ih =>
    intro f₂ s h1 h2
    cases f₂ with
    | zero => exact absurd h2 (Nat.not_lt_zero _)
    | succ g =>
      simp only [pyCountGo]
      by_cases hp : sub.isPrefixOf s = true
      · rw [if_pos hp, if_pos hp]
        by_cases he : sub = []
        · rw [if_pos he, if_pos he]
          cases s with
          | nil => rfl
          | cons c rest =>
            have hr : rest.length < f := by simp only [List.length_cons] at h1; omega
            have hr2 : rest.length < g := by simp only [List.length_cons] at h2; omega
            simp only [ih g rest hr hr2]
        · rw [if_neg he, if_neg he]
          have hsne : s ≠ [] := ne_nil_of_pre sub s he ((isPre_iff sub s).mp hp)
          have hlen : 0 < sub.length := List.length_pos.mpr he
          have hslen : 0 < s.length := List.length_pos.mpr hsne
          have hd : (s.drop sub.length).length < f := by rw [List.length_drop]; omega
          have hd2 : (s.drop sub.length).length < g := by rw [List.length_drop]; omega
          simp only [ih g (s.drop sub.length) hd hd2]
      · rw [if_neg hp, if_neg hp]
        cases s with
        | nil => rfl
        | cons c rest =>
          have hr : rest.length < f := by simp only [List.length_cons] at h1; omega
          have hr2 : rest.length < g := by simp only [List.length_cons] at h2; omega
          simp only [ih g rest hr hr2]

theorem rshiftGo_fuel (old new : PyStr) :
    ∀ f₁ f₂ s cnt i, s.length < f₁ → s.length < f₂ →
      rshiftGo old new f₁ s cnt i = rshiftGo old new f₂ s cnt i := by
  intro f₁
  induction f₁ with
  | zero => intro f₂ s cnt i h1 h2; exact absurd h1 (Nat.not_lt_zero _)
  | succ f ih =>
    intro f₂ s cnt i h1 h2
    cases f₂ with
    | zero => exact absurd h2 (Nat.not_lt_zero _)
    | succ g =>
      simp only [rshiftGo]
      by_cases hc : cnt = some 0
      · rw [if_pos hc, if_pos hc]
      · rw [if_neg hc, if_neg hc]
        by_cases hp : old.isPrefixOf s = true
        · rw [if_pos hp, if_pos hp]
          by_cases he : old = []
          · rw [if_pos he, if_pos he]
          · rw [if_neg he, if_neg he]
            by_cases hi : i < old.length
            · rw [if_pos hi, if_pos hi]
            · rw [if_neg hi, if_neg hi]
              have hsne : s ≠ [] := ne_nil_of_pre old s he ((isPre_iff old s).mp hp)
              have hlen : 0 < old.length := List.length_pos.mpr he
              have hslen : 0 < s.length := List.length_pos.mpr hsne
              have hd : (s.drop old.length).length < f := by rw [List.length_drop]; omega
              have hd2 : (s.drop old.length).length < g := by rw [List.length_drop]; omega
              simp only [ih g (s.drop old.length) (decCnt cnt) (i - old.length) hd hd2]
        · rw [if_neg hp, if_neg hp]
          cases s with
          | nil => rfl
          | cons c rest =>
            have hr : rest.length < f := by simp only [List.length_cons] at h1; omega
            have hr2 : rest.length < g := by simp only [List.length_cons] at h2; omega
            dsimp only
            by_cases hi : i = 0
            · rw [if_pos hi, if_pos hi]
            · rw [if_neg hi, if_neg hi]
              simp only [ih g rest cnt (i - 1) hr hr2]

theorem pyReplaceGo_cnt0 (old new : PyStr) (f : Nat) (s : PyStr) :
    pyReplaceGo old new f s (some 0) = (s, 0) := by
  cases f with
  | zero => rfl
  | succ g => simp [pyReplaceGo]

theorem pyReplace_cnt0 (s old new : PyStr) : pyReplace s old new (some 0) = s := by
  simp only [pyReplace, pyReplaceGo_cnt0]

theorem pyReplaceCount_cnt0 (s old new : PyStr) : pyReplaceCount s old new (some 0) = 0 := by
  simp only [pyReplaceCount, pyReplaceGo_cnt0]

theorem pyReplaceGo_nil (old new : PyStr) (f : Nat) (cnt : Option Nat) (hne : old ≠ []) :
    pyReplaceGo old new f [] cnt = ([], 0) := by
  cases f with
  | zero => rfl
  | succ g =>
    simp only [pyReplaceGo]
    by_cases hc : cnt = some 0
    · rw [if_pos hc]
    · rw [if_neg hc]
      have hp : old.isPrefixOf ([] : PyStr) ≠ true := by
        intro h
        exact hne (List.prefix_nil.mp ((isPre_iff old []).mp h))
      rw [if_neg hp]

theorem pyReplace_nil (old new : PyStr) (cnt : Option Nat) (hne : old ≠ []) :
    pyReplace [] old new cnt = [] := by
  simp only [pyReplace, pyReplaceGo_nil old new _ cnt hne]

theorem pyReplaceCount_nil (old new : PyStr) (cnt : Option Nat) (hne : old ≠ []) :
    pyReplaceCount [] old new cnt = 0 := by
  simp only [pyReplaceCount, pyReplaceGo_nil old new _ cnt hne]

theorem pyReplaceGo_match (old new s : PyStr) (cnt : Option Nat) (f : Nat)
    (hne : old ≠ []) (hp : old <+: s) (hc : cnt ≠ some 0) (hf : s.length < f + 1) :
    pyReplaceGo old new (f + 1) s cnt =
      (new ++ (pyReplaceGo old new f (s.drop old.length) (decCnt cnt)).1,
       (pyReplaceGo old new f (s.drop old.length) (decCnt cnt)).2 + 1) := by
  simp only [pyReplaceGo]
  rw [if_neg hc, if_pos ((isPre_iff old s).mpr hp), if_neg hne]

theorem pyReplace_match (old new s : PyStr) (cnt : Option Nat)
    (hne : old ≠ []) (hp : old <+: s) (hc : cnt ≠ some 0) :
    pyReplace s old new cnt = new ++ pyReplace (s.drop old.length) old new (decCnt cnt) := by
  have hsne : s ≠ [] := ne_nil_of_pre old s hne hp
  have h1 : 0 < old.length := List.length_pos.mpr hne
  have h2 : 0 < s.length := List.length_pos.mpr hsne
  have hfl : (s.drop old.length).length < s.length := by rw [List.length_drop]; omega
  simp only [pyReplace,
    pyReplaceGo_match old new s cnt s.length hne hp hc (Nat.lt_succ_self _)]
  rw [pyReplaceGo_fuel old new s.length ((s.drop old.length).length + 1) (s.drop old.length)
    (decCnt cnt) hfl (Nat.lt_succ_self _)]

theorem pyReplaceCount_match (old new s : PyStr) (cnt : Option Nat)
    (hne : old ≠ []) (hp : old <+: s) (hc : cnt ≠ some 0) :
    pyReplaceCount s old new cnt =
      pyReplaceCount (s.drop old.length) old new (decCnt cnt) + 1 := by
  have hsne : s ≠ [] := ne_nil_of_pre old s hne hp
  have h1 : 0 < old.length := List.length_pos.mpr hne
  have h2 : 0 < s.length := List.length_pos.mpr hsne
  have hfl : (s.drop old.length).length < s.length := by rw [List.length_drop]; omega
  simp only [pyReplaceCount,
    pyReplaceGo_match old new s cnt s.length hne hp hc (Nat.lt_succ_self _)]
  rw [pyReplaceGo_fuel old new s.length ((s.drop old.length).length + 1) (s.drop old.length)
    (decCnt cnt) hfl (Nat.lt_succ_self _)]

theorem pyReplaceGo_nomatch (old new : PyStr) (c : Nat) (rest : PyStr) (cnt : Option Nat)
    (f : Nat) (hp : ¬ old <+: (c :: rest)) :
    pyReplaceGo old new (f + 1) (c :: rest) cnt =
      ((c :: (pyReplaceGo old new f rest cnt).1), (pyReplaceGo old new f rest cnt).2) := by
  simp only [pyReplaceGo]
  have hb : old.isPrefixOf (c :: rest) ≠ true := fun h => hp ((isPre_iff _ _).mp h)
  by_cases hc : cnt = some 0
  · rw [if_pos hc]
    subst hc
    rw [pyReplaceGo_cnt0]
  · rw [if_neg hc, if_neg hb]

theorem pyReplace_nomatch (old new : PyStr) (c : Nat) (rest : PyStr) (cnt : Option Nat)
    (hp : ¬ old <+: (c :: rest)) :
    pyReplace (c :: rest) old new cnt = c :: pyReplace rest old new cnt := by
  simp only [pyReplace, List.length_cons,
    pyReplaceGo_nomatch old new c rest cnt (rest.length + 1) hp]

theorem pyReplaceCount_nomatch (old new : PyStr) (c : Nat) (rest : PyStr) (cnt : Option Nat)
    (hp : ¬ old <+: (c :: rest)) :
    pyReplaceCount (c :: rest) old new cnt = pyReplaceCount rest old new cnt := by
  simp only [pyReplaceCount, List.length_cons,
    pyReplaceGo_nomatch old new c rest cnt (rest.length + 1) hp]

theorem pyCountGo_nil (sub : PyStr) (f : Nat) (hne : sub ≠ []) :
    pyCountGo sub f [] = 0 := by
  cases f with
  | zero => rfl
  | succ g =>
    simp only [pyCountGo]
    have hp : sub.isPrefixOf ([] : PyStr) ≠ true := by
      intro h
      exact hne (List.prefix_nil.mp ((isPre_iff sub []).mp h))
    rw [if_neg hp]

theorem pyCount_nil (sub : PyStr) (hne : sub ≠ []) : pyCount [] sub = 0 := by
  simp only [pyCount, pyCountGo_nil sub _ hne]

theorem pyCountGo_match (sub s : PyStr) (f : Nat) (hne : sub ≠ []) (hp : sub <+: s) :
    pyCountGo sub (f + 1) s = 1 + pyCountGo sub f (s.drop sub.length) := by
  simp only [pyCountGo]
  rw [if_pos ((isPre_iff sub s).mpr hp), if_neg hne]

theorem pyCount_match (sub s : PyStr) (hne : sub ≠ []) (hp : sub <+: s) :
    pyCount s sub = pyCount (s.drop sub.length) sub + 1 := by
  have hsne : s ≠ [] := ne_nil_of_pre sub s hne hp
  have h1 : 0 < sub.length := List.length_pos.mpr hne
  have h2 : 0 < s.length := List.length_pos.mpr hsne
  have hfl : (s.drop sub.length).length < s.length := by rw [List.length_drop]; omega
  simp only [pyCount]
  rw [pyCountGo_match sub s s.length hne hp]
  rw [pyCountGo_fuel sub s.length ((s.drop sub.length).length + 1) (s.drop sub.length)
    hfl (Nat.lt_succ_self _)]
  omega

theorem pyCount_nomatch (sub : PyStr) (c : Nat) (rest : PyStr)
    (hp : ¬ sub <+: (c :: rest)) :
    pyCount (c :: rest) sub = pyCount rest sub := by
  have hb : sub.isPrefixOf (c :: rest) ≠ true := fun h => hp ((isPre_iff _ _).mp h)
  simp only [pyCount, pyCountGo, List.length_cons]
  rw [if_neg hb]

theorem rshiftGo_cnt0 (old new : PyStr) (f : Nat) (s : PyStr) (i : Nat) :
    rshiftGo old new f s (some 0) i = i := by
  cases f with
  | zero => rfl
  | succ g => simp [rshiftGo]

theorem rshift_cnt0 (s old new : PyStr) (i : Nat) : rshift s old new (some 0) i = i := by
  simp only [rshift, rshiftGo_cnt0]

theorem rshift_match_lt (old new s : PyStr) (cnt : Option Nat) (i : Nat)
    (hne : old ≠ []) (hp : old <+: s) (hc : cnt ≠ some 0) (hi : i < old.length) :
    rshift s old new cnt i = 0 := by
  simp only [rshift, rshiftGo]
  rw [if_neg hc, if_pos ((isPre_iff old s).mpr hp), if_neg hne, if_pos hi]

theorem rshiftGo_match_ge (old new s : PyStr) (cnt : Option Nat) (i f : Nat)
    (hne : old ≠ []) (hp : old <+: s) (hc : cnt ≠ some 0) (hi : ¬ i < old.length) :
    rshiftGo old new (f + 1) s cnt i =
      new.length + rshiftGo old new f (s.drop old.length) (decCnt cnt) (i - old.length) := by
  simp only [rshiftGo]
  rw [if_neg hc, if_pos ((isPre_iff old s).mpr hp), if_neg hne, if_neg hi]

theorem rshift_match_ge (old new s : PyStr) (cnt : Option Nat) (i : Nat)
    (hne : old ≠ []) (hp : old <+: s) (hc : cnt ≠ some 0) (hi : ¬ i < old.length) :
    rshift s old new cnt i =
      new.length + rshift (s.drop old.length) old new (decCnt cnt) (i - old.length) := by
  have hsne : s ≠ [] := ne_nil_of_pre old s hne hp
  have h1 : 0 < old.length := List.length_pos.mpr hne
  have h2 : 0 < s.length := List.length_pos.mpr hsne
  have hfl : (s.drop old.length).length < s.length := by rw [List.length_drop]; omega
  simp only [rshift]
  rw [rshiftGo_match_ge old new s cnt i s.length hne hp hc hi]
  rw [rshiftGo_fuel old new s.length ((s.drop old.length).length + 1) (s.drop old.length)
    (decCnt cnt) (i - old.length) hfl (Nat.lt_succ_self _)]

theorem rshiftGo_nomatch (old new : PyStr) (c : Nat) (rest : PyStr) (cnt : Option Nat)
    (i f : Nat) (hp : ¬ old <+: (c :: rest)) (hc : cnt ≠ some 0) :
    rshiftGo old new (f + 1) (c :: rest) cnt i =
      if i = 0 then 0 else 1 + rshiftGo old new f rest cnt (i - 1) := by
  have hb : old.isPrefixOf (c :: rest) ≠ true := fun h => hp ((isPre_iff _ _).mp h)
  simp only [rshiftGo]
  rw [if_neg hc, if_neg hb]

theorem rshift_nomatch_zero (old new : PyStr) (c : Nat) (rest : PyStr) (cnt : Option Nat)
    (hp : ¬ old <+: (c :: rest)) :
    rshift (c :: rest) old new cnt 0 = 0 := by
  by_cases hc : cnt = some 0
  · subst hc
    exact rshift_cnt0 _ _ _ _
  · simp only [rshift, List.length_cons]
    rw [rshiftGo_nomatch old new c rest cnt 0 (rest.length + 1) hp hc]
    rfl

theorem rshift_nomatch_succ (old new : PyStr) (c : Nat) (rest : PyStr) (cnt : Option Nat)
    (i : Nat) (hp : ¬ old <+: (c :: rest)) (hc : cnt ≠ some 0) (hi : i ≠ 0) :
    rshift (c :: rest) old new cnt i = 1 + rshift rest old new cnt (i - 1) := by
  simp only [rshift, List.length_cons]
  rw [rshiftGo_nomatch old new c rest cnt i (rest.length + 1) hp hc]
  rw [if_neg hi]

theorem occ_nil (pat : PyStr) (i : Nat) : occ pat i [] ↔ pat = [] := by
  simp only [occ, List.drop_nil, List.prefix_nil]

theorem occ_cons_succ (pat : PyStr) (i : Nat) (c : Nat) (s : PyStr) :
    occ pat (i + 1) (c :: s) ↔ occ pat i s := by
  simp only [occ, List.drop_succ_cons]

theorem occ_zero (pat s : PyStr) : occ pat 0 s ↔ pat <+: s := by
  simp only [occ, List.drop_zero]

theorem occ_length_le (pat : PyStr) (i : Nat) (s : PyStr) (hne : pat ≠ [])
    (h : occ pat i s) : i + pat.length ≤ s.length := by
  by_cases hi : i ≤ s.length
  · have := h.length_le
    rw [List.length_drop] at this
    omega
  · exfalso
    have hd : s.drop i = [] := List.drop_eq_nil_of_le (by omega)
    rw [occ, hd, List.prefix_nil] at h
    exact hne h

theorem infix_iff_occ (pat s : PyStr) : pat <:+: s ↔ ∃ i, occ pat i s := by
  constructor
  · rintro ⟨u, v, huv⟩
    refine ⟨u.length, ?_⟩
    rw [occ, ← huv, List.append_assoc, List.drop_left]
    exact List.prefix_append pat v
  · rintro ⟨i, h⟩
    obtain ⟨r, hr⟩ := h
    exact ⟨s.take i, r, by rw [List.append_assoc, hr, List.take_append_drop]⟩

theorem occ_append_left (p a b : PyStr) (i : Nat) (h : occ p i a) (hi : i ≤ a.length) :
    occ p i (a ++ b) := by
  rw [occ, List.drop_append_eq_append_drop]
  have h0 : i - a.length = 0 := by omega
  rw [h0, List.drop_zero]
  exact h.trans (List.prefix_append _ _)

theorem occ_append_right (p a b : PyStr) (j : Nat) (h : occ p j b) :
    occ p (a.length + j) (a ++ b) := by
  rw [occ, List.drop_append_eq_append_drop]
  have h1 : a.drop (a.length + j) = [] := List.drop_eq_nil_of_le (by omega)
  have h2 : a.length + j - a.length = j := by omega
  rw [h1, h2, List.nil_append]
  exact h

theorem pre_append_cases (p x b : PyStr) (h : p <+: x ++ b) :
    p <+: x ∨ (∃ q, p = x ++ q ∧ q <+: b) := by
  by_cases hl : p.length ≤ x.length
  · exact Or.inl ((List.isPrefix_append_of_length hl).mp h)
  · right
    have hp := List.prefix_iff_eq_take.mp h
    rw [List.take_append_eq_append_take, List.take_of_length_le (by omega)] at hp
    exact ⟨b.take (p.length - x.length), hp, List.take_prefix _ _⟩

theorem occ_append_split (p a b : PyStr) (q : Nat) (h : occ p q (a ++ b)) :
    (occ p q a ∧ q + p.length ≤ a.length)
    ∨ (a.length ≤ q ∧ occ p (q - a.length) b)
    ∨ (q < a.length ∧ a.length < q + p.length ∧
        a.drop q <+: p ∧ p.drop (a.length - q) <+: b) := by
  by_cases hq : q < a.length
  · rw [occ, List.drop_append_eq_append_drop] at h
    have h0 : q - a.length = 0 := by omega
    rw [h0, List.drop_zero] at h
    rcases pre_append_cases p (a.drop q) b h with hc | ⟨q₂, hq₂, hq₂b⟩
    · left
      have := hc.length_le
      rw [List.length_drop] at this
      exact ⟨hc, by omega⟩
    · by_cases hq₂e : q₂ = []
      · subst hq₂e
        rw [List.append_nil] at hq₂
        left
        have hlen : p.length = a.length - q := by rw [hq₂, List.length_drop]
        exact ⟨by rw [occ, hq₂], by omega⟩
      · right; right
        have hlq : (a.drop q).length = a.length - q := List.length_drop _ _
        have hpl : p.length = (a.length - q) + q₂.length := by
          rw [hq₂, List.length_append, hlq]
        have hq₂l : 0 < q₂.length := List.length_pos.mpr hq₂e
        refine ⟨hq, by omega, ⟨q₂, hq₂.symm⟩, ?_⟩
        have : p.drop (a.length - q) = q₂ := by
          rw [hq₂, ← hlq, List.drop_left]
        rw [this]
        exact hq₂b
  · right; left
    rw [occ, List.drop_append_eq_append_drop] at h
    have h1 : a.drop q = [] := List.drop_eq_nil_of_le (by omega)
    rw [h1, List.nil_append] at h
    exact ⟨by omega, h⟩

theorem infix_append_split (p a b : PyStr) (h : p <:+: a ++ b) :
    p <:+: a ∨ p <:+: b ∨
      ∃ k, 0 < k ∧ k < p.length ∧ p.take k <:+ a ∧ p.drop k <+: b := by
  rw [infix_iff_occ] at h
  obtain ⟨q, hq⟩ := h
  rcases occ_append_split p a b q hq with ⟨h1, _⟩ | ⟨_, h2⟩ | ⟨hlt, hgt, hpre, hdrop⟩
  · exact Or.inl ((infix_iff_occ p a).mpr ⟨q, h1⟩)
  · exact Or.inr (Or.inl ((infix_iff_occ p b).mpr ⟨q - a.length, h2⟩))
  · right; right
    refine ⟨a.length - q, by omega, by
      have := hpre.length_le
      rw [List.length_drop] at this
      omega, ?_, hdrop⟩
    have : p.take (a.length - q) = a.drop q := by
      have := List.prefix_iff_eq_take.mp hpre
      rw [this, List.length_drop]
    rw [this]
    exact List.drop_suffix _ _

theorem pyFindIdx_none (s sub : PyStr) (h : pyFindIdx s sub = none) :
    ∀ i, ¬ occ sub i s := by
  induction s with
  | nil =>
    intro i hocc
    rw [occ_nil] at hocc
    subst hocc
    rw [pyFindIdx, if_pos (by decide)] at h
    exact Option.noConfusion h
  | cons c rest ih =>
    rw [pyFindIdx] at h
    by_cases hp : sub.isPrefixOf (c :: rest) = true
    · rw [if_pos hp] at h
      exact Option.noConfusion h
    · rw [if_neg hp] at h
      have hrest : pyFindIdx rest sub = none := by
        cases hr : pyFindIdx rest sub with
        | none => rfl
        | some k => rw [hr] at h; exact Option.noConfusion h
      intro i hocc
      cases i with
      | zero =>
        rw [occ_zero] at hocc
        exact hp ((isPre_iff _ _).mpr hocc)
      | succ j =>
        rw [occ_cons_succ] at hocc
        exact ih hrest j hocc

theorem pyFindIdx_some (s sub : PyStr) (i : Nat) (h : pyFindIdx s sub = some i) :
    occ sub i s ∧ ∀ j, j < i → ¬ occ sub j s := by
  induction s generalizing i with
  | nil =>
    rw [pyFindIdx] at h
    by_cases hp : sub.isPrefixOf ([] : PyStr) = true
    · rw [if_pos hp] at h
      have hi : i = 0 := by cases h; rfl
      subst hi
      exact ⟨(occ_zero _ _).mpr ((isPre_iff _ _).mp hp), fun j hj => by omega⟩
    · rw [if_neg hp] at h
      exact Option.noConfusion h
  | cons c rest ih =>
    rw [pyFindIdx] at h
    by_cases hp : sub.isPrefixOf (c :: rest) = true
    · rw [if_pos hp] at h
      have hi : i = 0 := by cases h; rfl
      subst hi
      exact ⟨(occ_zero _ _).mpr ((isPre_iff _ _).mp hp), fun j hj => by omega⟩
    · rw [if_neg hp] at h
      cases hr : pyFindIdx rest sub with
      | none => rw [hr] at h; exact Option.noConfusion h
      | some k =>
        rw [hr] at h
        have hik : i = k + 1 := by cases h; rfl
        subst hik
        obtain ⟨hocc, hmin⟩ := ih k hr
        refine ⟨(occ_cons_succ _ _ _ _).mpr hocc, ?_⟩
        intro j hj
        cases j with
        | zero =>
          intro hc
          rw [occ_zero] at hc
          exact hp ((isPre_iff _ _).mpr hc)
        | succ j' =>
          intro hc
          rw [occ_cons_succ] at hc
          exact hmin j' (by omega) hc

theorem pyFindIdx_le (s sub : PyStr) (i : Nat) (h : occ sub i s) :
    ∃ k, k ≤ i ∧ pyFindIdx s sub = some k := by
  cases hf : pyFindIdx s sub with
  | none => exact absurd h (pyFindIdx_none s sub hf i)
  | some k =>
    obtain ⟨_, hmin⟩ := pyFindIdx_some s sub k hf
    refine ⟨k, ?_, rfl⟩
    by_contra hk
    exact hmin i (by omega) h

theorem pyFindIdx_eq_some (s sub : PyStr) (i : Nat)
    (hocc : occ sub i s) (hmin : ∀ j, j < i → ¬ occ sub j s) :
    pyFindIdx s sub = some i := by
  obtain ⟨k, hk, hf⟩ := pyFindIdx_le s sub i hocc
  obtain ⟨hocck, _⟩ := pyFindIdx_some s sub k hf
  rcases Nat.lt_or_ge k i with hlt | hge
  · exact absurd hocck (hmin k hlt)
  · have : k = i := by omega
    rw [← this]
    exact hf

theorem pyFind_nat (s sub : PyStr) (st : Nat) (hst : st ≤ s.length) :
    pyFind s sub (st : Int) =
      (match pyFindIdx (s.drop st) sub with
       | some i => ((st + i : Nat) : Int)
       | none => -1) := by
  rw [pyFind]
  have h1 : ¬ ((st : Int) < 0) := by omega
  rw [if_neg h1]
  have h2 : (st : Int).toNat = st := Int.toNat_natCast st
  rw [h2, if_neg (by omega)]
  cases hf : pyFindIdx (s.drop st) sub with
  | some i => simp
  | none => simp

theorem pyFind_zero_some (s sub : PyStr) (i : Nat) (h : pyFindIdx s sub = some i) :
    pyFind s sub 0 = (i : Int) := by
  have := pyFind_nat s sub 0 (by omega)
  rw [List.drop_zero] at this
  rw [show ((0 : Nat) : Int) = (0 : Int) from rfl] at this
  rw [this, h]
  simp

theorem pyFind_zero_none (s sub : PyStr) (h : pyFindIdx s sub = none) :
    pyFind s sub 0 = -1 := by
  have := pyFind_nat s sub 0 (by omega)
  rw [List.drop_zero] at this
  rw [show ((0 : Nat) : Int) = (0 : Int) from rfl] at this
  rw [this, h]

theorem pyReplace_no_occ (old new : PyStr) (cnt : Option Nat) (hne : old ≠ []) :
    ∀ s, ¬ old <:+: s → pyReplace s old new cnt = s := by
  intro s
  induction s with
  | nil => intro _; exact pyReplace_nil old new cnt hne
  | cons c rest ih =>
    intro h
    have hp : ¬ old <+: (c :: rest) := fun hp => h hp.isInfix
    rw [pyReplace_nomatch old new c rest cnt hp]
    rw [ih (fun hi => h ((List.infix_cons_iff).mpr (Or.inr hi)))]

theorem pyCount_eq_zero_iff (sub : PyStr) (hne : sub ≠ []) :
    ∀ s, pyCount s sub = 0 ↔ ¬ sub <:+: s := by
  intro s
  induction s with
  | nil =>
    rw [pyCount_nil sub hne]
    simp only [true_iff]
    intro h
    exact hne (List.eq_nil_of_infix_nil h)
  | cons c rest ih =>
    by_cases hp : sub <+: (c :: rest)
    · rw [pyCount_match sub (c :: rest) hne hp]
      simp only [Nat.succ_ne_zero, false_iff, not_not]
      exact hp.isInfix
    · rw [pyCount_nomatch sub c rest hp, ih, List.infix_cons_iff]
      tauto

theorem pyReplaceCount_eq_pyCount_aux (old new : PyStr) (hne : old ≠ []) :
    ∀ n s, s.length ≤ n → pyReplaceCount s old new none = pyCount s old := by
  intro n
  induction n with
  | zero =>
    intro s hs
    have h0 : s = [] := List.eq_nil_of_length_eq_zero (by omega)
    subst h0
    rw [pyReplaceCount_nil _ _ _ hne, pyCount_nil _ hne]
  | succ m ih =>
    intro s hs
    by_cases hp : old <+: s
    · have hd : (s.drop old.length).length ≤ m := by
        have h1 : 0 < old.length := List.length_pos.mpr hne
        have h2 : 0 < s.length :=
          List.length_pos.mpr (ne_nil_of_pre old s hne hp)
        rw [List.length_drop]
        omega
      rw [pyReplaceCount_match old new s none hne hp (by intro h; exact Option.noConfusion h)]
      rw [pyCount_match old s hne hp]
      rw [show decCnt none = none from rfl]
      rw [ih _ hd]
    · cases s with
      | nil => rw [pyReplaceCount_nil _ _ _ hne, pyCount_nil _ hne]
      | cons c rest =>
        rw [pyReplaceCount_nomatch _ _ _ _ _ hp, pyCount_nomatch _ _ _ hp]
        exact ih rest (by simp only [List.length_cons] at hs; omega)

theorem pyReplaceCount_eq_pyCount (old new s : PyStr) (hne : old ≠ []) :
    pyReplaceCount s old new none = pyCount s old :=
  pyReplaceCount_eq_pyCount_aux old new hne s.length s (Nat.le_refl _)

theorem pyReplace_first (old new : PyStr) (i : Nat) (hne : old ≠ []) :
    ∀ s, occ old i s → (∀ q, q < i → ¬ occ old q s) →
      pyReplace s old new (some 1) = s.take i ++ new ++ s.drop (i + old.length) := by
  induction i with
  | zero =>
    intro s hocc _
    rw [occ_zero] at hocc
    rw [pyReplace_match old new s (some 1) hne hocc (by decide),
      show decCnt (some 1) = some 0 from rfl, pyReplace_cnt0]
    rw [List.take_zero, List.nil_append, Nat.zero_add]
  | succ i' ih =>
    intro s hocc hmin
    cases s with
    | nil =>
      rw [occ_nil] at hocc
      exact absurd hocc hne
    | cons c rest =>
      have hp : ¬ old <+: (c :: rest) :=
        fun h => hmin 0 (by omega) ((occ_zero _ _).mpr h)
      rw [pyReplace_nomatch old new c rest (some 1) hp]
      rw [ih rest ((occ_cons_succ _ _ _ _).mp hocc)
        (fun q hq hoc => hmin (q+1) (by omega) ((occ_cons_succ _ _ _ _).mpr hoc))]
      rw [List.take_succ_cons, show i' + 1 + old.length = (i' + old.length) + 1 by omega,
        List.drop_succ_cons]
      rfl

theorem suffix_transfer (old new : PyStr) (hne : old ≠ [])
    (hlen : old.length ≤ new.length)
    (h4 : ∀ k, k < old.length → 0 < k → ¬ (old.drop k) <+: new) :
    ∀ n s, s.length ≤ n → ∀ q, q ≠ [] → q.length < old.length → q <:+ old →
      q <+: pyReplace s old new none → q <+: s := by
  intro n
  induction n with
  | zero =>
    intro s hs q hq _ _ hpre
    have h0 : s = [] := List.eq_nil_of_length_eq_zero (by omega)
    subst h0
    rw [pyReplace_nil old new none hne] at hpre
    exact absurd (List.prefix_nil.mp hpre) hq
  | succ m ih =>
    intro s hs q hq hql hqs hpre
    by_cases hp : old <+: s
    · exfalso
      rw [pyReplace_match old new s none hne hp (by intro h; exact Option.noConfusion h)]
        at hpre
      have hqn : q <+: new :=
        (List.isPrefix_append_of_length (by omega)).mp hpre
      have hk := List.suffix_iff_eq_drop.mp hqs
      have h0 : 0 < old.length - q.length := by omega
      have h1 : old.length - q.length < old.length := by
        have : 0 < q.length := List.length_pos.mpr hq
        omega
      exact h4 _ h1 h0 (by rw [← hk]; exact hqn)
    · cases s with
      | nil =>
        rw [pyReplace_nil old new none hne] at hpre
        exact absurd (List.prefix_nil.mp hpre) hq
      | cons c rest =>
        rw [pyReplace_nomatch old new c rest none hp] at hpre
        cases q with
        | nil => exact absurd rfl hq
        | cons qc q' =>
          obtain ⟨hqc, hq'⟩ := List.cons_prefix_cons.mp hpre
          subst hqc
          by_cases hq'e : q' = []
          · subst hq'e
            exact ⟨rest, rfl⟩
          · have hq's : q' <:+ old := (show q' <:+ qc :: q' from ⟨[qc], rfl⟩).trans hqs
            have hq'l : q'.length < old.length := by
              simp only [List.length_cons] at hql
              omega
            have := ih rest (by simp only [List.length_cons] at hs; omega)
              q' hq'e hq'l hq's hq'
            exact List.cons_prefix_cons.mpr ⟨rfl, this⟩

theorem replaceAll_no_occ (old new : PyStr) (hne : old ≠ [])
    (hlen : old.length ≤ new.length)
    (hOinN : ¬ old <:+: new)
    (h4 : ∀ k, k < old.length → 0 < k → ¬ (old.drop k) <+: new)
    (h5 : ∀ k, k < new.length → 0 < k → ¬ (new.drop k) <+: old) :
    ∀ n s, s.length ≤ n → ¬ old <:+: pyReplace s old new none := by
  intro n
  induction n with
  | zero =>
    intro s hs hinf
    have h0 : s = [] := List.eq_nil_of_length_eq_zero (by omega)
    subst h0
    rw [pyReplace_nil old new none hne] at hinf
    exact hne (List.eq_nil_of_infix_nil hinf)
  | succ m ih =>
    intro s hs hinf
    by_cases hp : old <+: s
    · rw [pyReplace_match old new s none hne hp (by intro h; exact Option.noConfusion h)]
        at hinf
      have hd : (s.drop old.length).length ≤ m := by
        have h1 : 0 < old.length := List.length_pos.mpr hne
        have h2 : 0 < s.length := List.length_pos.mpr (ne_nil_of_pre old s hne hp)
        rw [List.length_drop]
        omega
      rcases infix_append_split old new _ hinf with hc | hc | ⟨k, hk0, hkl, htake, hdrop⟩
      · exact hOinN hc
      · exact ih (s.drop old.length) hd hc
      · have hsuf := List.suffix_iff_eq_drop.mp htake
        have htl : (old.take k).length = k := by
          rw [List.length_take]
          omega
        have h0 : 0 < new.length - (old.take k).length := by
          rw [htl]; omega
        have h1 : new.length - (old.take k).length < new.length := by
          rw [htl]; omega
        exact h5 _ h1 h0 (by rw [← hsuf]; exact List.take_prefix _ _)
    · cases s with
      | nil =>
        rw [pyReplace_nil old new none hne] at hinf
        exact hne (List.eq_nil_of_infix_nil hinf)
      | cons c rest =>
        rw [pyReplace_nomatch old new c rest none hp] at hinf
        have hm : rest.length ≤ m := by simp only [List.length_cons] at hs; omega
        rcases List.infix_cons_iff.mp hinf with hc | hc
        · cases old with
          | nil => exact hne rfl
          | cons oc old' =>
            obtain ⟨hoc, hold'⟩ := List.cons_prefix_cons.mp hc
            subst hoc
            by_cases ho'e : old' = []
            · subst ho'e
              exact hp (List.cons_prefix_cons.mpr ⟨rfl, List.nil_prefix⟩)
            · have ho's : old' <:+ oc :: old' := ⟨[oc], rfl⟩
              have ho'l : old'.length < (oc :: old').length := by
                simp only [List.length_cons]; omega
              have := suffix_transfer (oc :: old') new hne hlen h4 m rest hm
                old' ho'e ho'l ho's hold'
              exact hp (List.cons_prefix_cons.mpr ⟨rfl, this⟩)
        · exact ih rest hm hc

theorem occ_overlap_left (M P s : PyStr) (i q : Nat)
    (hM : occ M i s) (hP : occ P q s) (hq : q ≤ i) (hover : i < q + P.length) :
    M <:+: P ∨ ∃ k, k < P.length ∧ (P.drop k) <+: M := by
  obtain ⟨r, hr⟩ := hP
  have hdrop : s.drop i = P.drop (i - q) ++ r := by
    have h1 : s.drop i = (s.drop q).drop (i - q) := by
      rw [List.drop_drop]
      congr 1
      omega
    have h2 : (i - q) - P.length = 0 := by omega
    rw [h1, ← hr, List.drop_append_eq_append_drop, h2, List.drop_zero]
  rw [occ, hdrop] at hM
  rcases pre_append_cases M (P.drop (i - q)) r hM with hc | ⟨q₂, hq₂, _⟩
  · exact Or.inl (hc.isInfix.trans (List.drop_suffix (i - q) P).isInfix)
  · exact Or.inr ⟨i - q, by omega, ⟨q₂, hq₂.symm⟩⟩

theorem no_overlap (P M s : PyStr) (hind : indep P M) (hPne : P ≠ []) (hMne : M ≠ [])
    (i q : Nat) (hM : occ M i s) (hP : occ P q s) :
    i + M.length ≤ q ∨ q + P.length ≤ i := by
  obtain ⟨hMP, hPM, hsp, hsm⟩ := hind
  by_contra hcon
  push_neg at hcon
  obtain ⟨h1, h2⟩ := hcon
  rcases le_or_lt q i with hqi | hiq
  · rcases occ_overlap_left M P s i q hM hP hqi h2 with hc | ⟨k, hk, hpre⟩
    · exact hMP hc
    · exact hsp k hk hpre
  · rcases occ_overlap_left P M s q i hP hM (by omega) h1 with hc | ⟨k, hk, hpre⟩
    · exact hPM hc
    · exact hsm k hk hpre

theorem rshift_nil (old new : PyStr) (cnt : Option Nat) (i : Nat) (hne : old ≠ []) :
    rshift [] old new cnt i = i := by
  simp only [rshift, List.length_nil, rshiftGo]
  by_cases hc : cnt = some 0
  · rw [if_pos hc]
  · rw [if_neg hc]
    have hp : old.isPrefixOf ([] : PyStr) ≠ true := by
      intro h
      exact hne (List.prefix_nil.mp ((isPre_iff old []).mp h))
    rw [if_neg hp]

theorem prefix_preserve (old new : PyStr) (hne : old ≠ []) :
    ∀ n s, s.length ≤ n → ∀ (M : PyStr) (cnt : Option Nat), M <+: s →
      (∀ q, q < M.length → ¬ occ old q s) →
      M <+: pyReplace s old new cnt := by
  intro n
  induction n with
  | zero =>
    intro s hs M cnt hM _
    have h0 : s = [] := List.eq_nil_of_length_eq_zero (by omega)
    subst h0
    rw [pyReplace_nil old new cnt hne]
    exact hM
  | succ m ih =>
    intro s hs M cnt hM hno
    by_cases hc : cnt = some 0
    · subst hc
      rw [pyReplace_cnt0]
      exact hM
    · by_cases hMe : M = []
      · subst hMe
        exact List.nil_prefix
      · have hMl : 0 < M.length := List.length_pos.mpr hMe
        by_cases hp : old <+: s
        · exact absurd ((occ_zero old s).mpr hp) (hno 0 hMl)
        · cases s with
          | nil =>
            rw [pyReplace_nil old new cnt hne]
            exact hM
          | cons c rest =>
            rw [pyReplace_nomatch old new c rest cnt hp]
            cases M with
            | nil => exact List.nil_prefix
            | cons mc M' =>
              obtain ⟨hmc, hM'⟩ := List.cons_prefix_cons.mp hM
              subst hmc
              refine List.cons_prefix_cons.mpr ⟨rfl, ?_⟩
              refine ih rest (by simp only [List.length_cons] at hs; omega) M' cnt hM' ?_
              intro q hq hoc
              exact hno (q+1) (by simp only [List.length_cons]; omega)
                ((occ_cons_succ _ _ _ _).mpr hoc)

theorem occ_preserve (old new M : PyStr) (hone : old ≠ []) (hMne : M ≠ [])
    (hind : indep old M) :
    ∀ n s, s.length ≤ n → ∀ (cnt : Option Nat) (i : Nat), occ M i s →
      occ M (rshift s old new cnt i) (pyReplace s old new cnt) := by
  intro n
  induction n with
  | zero =>
    intro s hs cnt i hM
    have h0 : s = [] := List.eq_nil_of_length_eq_zero (by omega)
    subst h0
    rw [occ_nil] at hM
    exact absurd hM hMne
  | succ m ih =>
    intro s hs cnt i hM
    by_cases hc : cnt = some 0
    · subst hc
      rw [pyReplace_cnt0, rshift_cnt0]
      exact hM
    · by_cases hp : old <+: s
      · have hio : ¬ i < old.length := by
          intro hi
          rcases no_overlap old M s hind hone hMne i 0 hM ((occ_zero old s).mpr hp) with h | h
          · have : 0 < M.length := List.length_pos.mpr hMne
            omega
          · omega
        have hd : (s.drop old.length).length ≤ m := by
          have h1 : 0 < old.length := List.length_pos.mpr hone
          have h2 : 0 < s.length := List.length_pos.mpr (ne_nil_of_pre old s hone hp)
          rw [List.length_drop]
          omega
        have hMd : occ M (i - old.length) (s.drop old.length) := by
          rw [occ, List.drop_drop]
          rw [show old.length + (i - old.length) = i by omega]
          exact hM
        rw [pyReplace_match old new s cnt hone hp hc,
          rshift_match_ge old new s cnt i hone hp hc hio]
        exact occ_append_right M new _ _ (ih _ hd (decCnt cnt) (i - old.length) hMd)
      · cases s with
        | nil =>
          rw [occ_nil] at hM
          exact absurd hM hMne
        | cons c rest =>
          have hm : rest.length ≤ m := by simp only [List.length_cons] at hs; omega
          cases i with
          | zero =>
            rw [rshift_nomatch_zero old new c rest cnt hp]
            rw [occ_zero] at hM ⊢
            refine prefix_preserve old new hone (m+1) (c :: rest) hs M cnt hM ?_
            intro q hq hoc
            have hM0 : occ M 0 (c :: rest) := (occ_zero _ _).mpr hM
            rcases no_overlap old M (c :: rest) hind hone hMne 0 q hM0 hoc with h | h
            · omega
            · have : 0 < old.length := List.length_pos.mpr hone
              omega
          | succ j =>
            rw [rshift_nomatch_succ old new c rest cnt (j+1) hp hc (by omega),
              pyReplace_nomatch old new c rest cnt hp]
            have := ih rest hm cnt j ((occ_cons_succ _ _ _ _).mp hM)
            rw [Nat.add_sub_cancel, Nat.add_comm 1 (rshift rest old new cnt j)]
            exact (occ_cons_succ _ _ _ _).mpr this

theorem rshift_mono (old new : PyStr) (hne : old ≠ []) :
    ∀ n s, s.length ≤ n → ∀ (cnt : Option Nat) (i j : Nat), i ≤ j →
      rshift s old new cnt i ≤ rshift s old new cnt j := by
  intro n
  induction n with
  | zero =>
    intro s hs cnt i j hij
    have h0 : s = [] := List.eq_nil_of_length_eq_zero (by omega)
    subst h0
    rw [rshift_nil old new cnt i hne, rshift_nil old new cnt j hne]
    exact hij
  | succ m ih =>
    intro s hs cnt i j hij
    by_cases hc : cnt = some 0
    · subst hc
      rw [rshift_cnt0, rshift_cnt0]
      exact hij
    · by_cases hp : old <+: s
      · have hd : (s.drop old.length).length ≤ m := by
          have h1 : 0 < old.length := List.length_pos.mpr hne
          have h2 : 0 < s.length := List.length_pos.mpr (ne_nil_of_pre old s hne hp)
          rw [List.length_drop]
          omega
        by_cases hi : i < old.length
        · rw [rshift_match_lt old new s cnt i hne hp hc hi]
          exact Nat.zero_le _
        · have hj : ¬ j < old.length := by omega
          rw [rshift_match_ge old new s cnt i hne hp hc hi,
            rshift_match_ge old new s cnt j hne hp hc hj]
          have := ih _ hd (decCnt cnt) (i - old.length) (j - old.length) (by omega)
          omega
      · cases s with
        | nil =>
          rw [rshift_nil old new cnt i hne, rshift_nil old new cnt j hne]
          exact hij
        | cons c rest =>
          have hm : rest.length ≤ m := by simp only [List.length_cons] at hs; omega
          cases i with
          | zero =>
            rw [rshift_nomatch_zero old new c rest cnt hp]
            exact Nat.zero_le _
          | succ i' =>
            have hj : j ≠ 0 := by omega
            rw [rshift_nomatch_succ old new c rest cnt (i'+1) hp hc (by omega),
              rshift_nomatch_succ old new c rest cnt j hp hc hj]
            have := ih rest hm cnt (i'+1-1) (j-1) (by omega)
            omega

theorem pair_preserve (old new Ms₀ Me₀ : PyStr) (hone : old ≠ [])
    (hMs : Ms₀ ≠ []) (hMe : Me₀ ≠ [])
    (hi1 : indep old Ms₀) (hi2 : indep old Me₀) (s : PyStr) (cnt : Option Nat)
    (i j : Nat) (hij : i ≤ j) (ho1 : occ Ms₀ i s) (ho2 : occ Me₀ j s) :
    ∃ i' j', i' ≤ j' ∧ occ Ms₀ i' (pyReplace s old new cnt) ∧
      occ Me₀ j' (pyReplace s old new cnt) :=
  ⟨rshift s old new cnt i, rshift s old new cnt j,
   rshift_mono old new hone s.length s (Nat.le_refl _) cnt i j hij,
   occ_preserve old new Ms₀ hone hMs hi1 s.length s (Nat.le_refl _) cnt i ho1,
   occ_preserve old new Me₀ hone hMe hi2 s.length s (Nat.le_refl _) cnt j ho2⟩

set_option maxRecDepth 10000 in
theorem markers_preserved (t : PyStr) (i j : Nat) (hij : i ≤ j)
    (h1 : occ start_marker i t) (h2 : occ end_marker j t) :
    ∃ i' j', i' ≤ j' ∧ occ start_marker i' (patches1to14 t) ∧
      occ end_marker j' (patches1to14 t) := by
  obtain ⟨i1, j1, g1, a1, b1⟩ := pair_preserve pat1 rep1 start_marker end_marker
    (by decide) (by decide) (by decide) (by decide) (by decide) t (some 1) i j hij h1 h2
  obtain ⟨i2, j2, g2, a2, b2⟩ := pair_preserve pat2 rep2 start_marker end_marker
    (by decide) (by decide) (by decide) (by decide) (by decide) _ (some 1) i1 j1 g1 a1 b1
  obtain ⟨i3, j3, g3, a3, b3⟩ := pair_preserve pat3a [] start_marker end_marker
    (by decide) (by decide) (by decide) (by decide) (by decide) _ (some 1) i2 j2 g2 a2 b2
  obtain ⟨i4, j4, g4, a4, b4⟩ := pair_preserve pat3b [] start_marker end_marker
    (by decide) (by decide) (by decide) (by decide) (by decide) _ (some 1) i3 j3 g3 a3 b3
  obtain ⟨i5, j5, g5, a5, b5⟩ := pair_preserve pat4 userscript_injection start_marker end_marker
    (by decide) (by decide) (by decide) (by decide) (by decide) _ (some 1) i4 j4 g4 a4 b4
  obtain ⟨i6, j6, g6, a6, b6⟩ := pair_preserve pat5a rep5a start_marker end_marker
    (by decide) (by decide) (by decide) (by decide) (by decide) _ none i5 j5 g5 a5 b5
  obtain ⟨i7, j7, g7, a7, b7⟩ := pair_preserve pat5b rep5b start_marker end_marker
    (by decide) (by decide) (by decide) (by decide) (by decide) _ none i6 j6 g6 a6 b6
  obtain ⟨i8, j8, g8, a8, b8⟩ := pair_preserve pat6 rep6 start_marker end_marker
    (by decide) (by decide) (by decide) (by decide) (by decide) _ (some 1) i7 j7 g7 a7 b7
  obtain ⟨i9, j9, g9, a9, b9⟩ := pair_preserve pat7 rep7 start_marker end_marker
    (by decide) (by decide) (by decide) (by decide) (by decide) _ (some 1) i8 j8 g8 a8 b8
  obtain ⟨i10, j10, g10, a10, b10⟩ := pair_preserve pat8a uuid_replacement start_marker end_marker
    (by decide) (by decide) (by decide) (by decide) (by decide) _ (some 1) i9 j9 g9 a9 b9
  obtain ⟨i11, j11, g11, a11, b11⟩ := pair_preserve pat8b rep8b start_marker end_marker
    (by decide) (by decide) (by decide) (by decide) (by decide) _ none i10 j10 g10 a10 b10
  obtain ⟨i12, j12, g12, a12, b12⟩ := pair_preserve pat9 rep9 start_marker end_marker
    (by decide) (by decide) (by decide) (by decide) (by decide) _ (some 1) i11 j11 g11 a11 b11
  obtain ⟨i13, j13, g13, a13, b13⟩ := pair_preserve pat10 rep10 start_marker end_marker
    (by decide) (by decide) (by decide) (by decide) (by decide) _ (some 1) i12 j12 g12 a12 b12
  obtain ⟨i14, j14, g14, a14, b14⟩ := pair_preserve pat11 rep11 start_marker end_marker
    (by decide) (by decide) (by decide) (by decide) (by decide) _ (some 1) i13 j13 g13 a13 b13
  obtain ⟨i15, j15, g15, a15, b15⟩ := pair_preserve pat12 rep12 start_marker end_marker
    (by decide) (by decide) (by decide) (by decide) (by decide) _ (some 1) i14 j14 g14 a14 b14
  obtain ⟨i16, j16, g16, a16, b16⟩ := pair_preserve pat13 rep13 start_marker end_marker
    (by decide) (by decide) (by decide) (by decide) (by decide) _ (some 1) i15 j15 g15 a15 b15
  obtain ⟨i17, j17, g17, a17, b17⟩ := pair_preserve pat14 rep14 start_marker end_marker
    (by decide) (by decide) (by decide) (by decide) (by decide) _ none i16 j16 g16 a16 b16
  exact ⟨i17, j17, g17, a17, b17⟩

theorem pySlice_isSub (s : PyStr) (a b : Nat) : pySlice s a b <:+: s :=
  ((List.drop_suffix a (s.take b)).isInfix).trans (List.take_prefix b s).isInfix

theorem pyContains_of_isSub (s sub : PyStr) (h : sub <:+: s) : pyContains s sub = true := by
  rw [infix_iff_occ] at h
  obtain ⟨k, hk⟩ := h
  obtain ⟨k', _, hf⟩ := pyFindIdx_le s sub k hk
  rw [pyContains, hf]
  rfl

theorem patch15_ok_branch (t : PyStr) (hs : pyFind t start_marker 0 ≠ -1)
    (he : pyFind t end_marker (pyFind t start_marker 0) ≠ -1) :
    patch15 t = .ok (pyReplace t
      (pySlice t (pyFind t start_marker 0).toNat
        ((pyFind t end_marker (pyFind t start_marker 0)).toNat + end_marker.length))
      new_block (some 1)) := by
  simp only [patch15]
  rw [if_neg (by tauto)]
  rw [if_pos (pyContains_of_isSub _ _ (pySlice_isSub _ _ _))]

theorem patch15_err (t : PyStr)
    (h : pyFind t start_marker 0 = -1 ∨ pyFind t end_marker (pyFind t start_marker 0) = -1) :
    patch15 t = .error .blockMarkersNotFound := by
  simp only [patch15]
  rw [if_pos h]

theorem patch15_ok (t : PyStr) (i j : Nat) (hij : i ≤ j)
    (h1 : occ start_marker i t) (h2 : occ end_marker j t) :
    ∃ u, patch15 t = .ok u := by
  obtain ⟨i₀, hi₀le, hfind⟩ := pyFindIdx_le t start_marker i h1
  have hfs : pyFind t start_marker 0 = (i₀ : Int) := pyFind_zero_some t start_marker i₀ hfind
  have hi₀len : i₀ ≤ t.length := by
    have hocc0 := (pyFindIdx_some t start_marker i₀ hfind).1
    have := occ_length_le start_marker i₀ t (by decide) hocc0
    omega
  have hoccd : occ end_marker (j - i₀) (t.drop i₀) := by
    rw [occ, List.drop_drop, show i₀ + (j - i₀) = j by omega]
    exact h2
  obtain ⟨j₀, _, hfind2⟩ := pyFindIdx_le (t.drop i₀) end_marker (j - i₀) hoccd
  have hfe : pyFind t end_marker ((i₀ : Nat) : Int) = ((i₀ + j₀ : Nat) : Int) := by
    rw [pyFind_nat t end_marker i₀ hi₀len, hfind2]
  refine ⟨_, patch15_ok_branch t ?_ ?_⟩
  · rw [hfs]
    omega
  · rw [hfs, hfe]
    omega

theorem utf8Encode_cons (c : Nat) (s : PyStr) :
    utf8Encode (c :: s) = utf8EncodeChar c ++ utf8Encode s := by
  simp [utf8Encode]

theorem utf8EncodeChar_1byte (b0 : Nat) (h : b0 < 0x80) : utf8EncodeChar b0 = [b0] := by
  rw [utf8EncodeChar, if_pos h]

theorem utf8EncodeChar_2byte (b0 b1 : Nat) (h0 : 0xC2 ≤ b0) (h0' : b0 ≤ 0xDF)
    (h1 : 0x80 ≤ b1) (h1' : b1 ≤ 0xBF) :
    utf8EncodeChar ((b0 - 0xC0) * 64 + (b1 - 0x80)) = [b0, b1] := by
  rw [utf8EncodeChar]
  rw [if_neg (by omega), if_pos (by omega)]
  simp only [List.cons.injEq, and_true]
  exact ⟨by omega, by omega⟩

theorem utf8EncodeChar_3byte (b0 b1 b2 : Nat) (h0 : 0xE0 ≤ b0) (h0' : b0 ≤ 0xEF)
    (h1 : 0x80 ≤ b1) (h1' : b1 ≤ 0xBF) (h2 : 0x80 ≤ b2) (h2' : b2 ≤ 0xBF)
    (hlo : 0x800 ≤ (b0 - 0xE0) * 4096 + (b1 - 0x80) * 64 + (b2 - 0x80)) :
    utf8EncodeChar ((b0 - 0xE0) * 4096 + (b1 - 0x80) * 64 + (b2 - 0x80)) = [b0, b1, b2] := by
  rw [utf8EncodeChar]
  rw [if_neg (by omega), if_neg (by omega), if_pos (by omega)]
  simp only [List.cons.injEq, and_true]
  exact ⟨by omega, by omega, by omega⟩

theorem utf8EncodeChar_4byte (b0 b1 b2 b3 : Nat) (h0 : 0xF0 ≤ b0) (h0' : b0 ≤ 0xF4)
    (h1 : 0x80 ≤ b1) (h1' : b1 ≤ 0xBF) (h2 : 0x80 ≤ b2) (h2' : b2 ≤ 0xBF)
    (h3 : 0x80 ≤ b3) (h3' : b3 ≤ 0xBF)
    (hlo : 0x10000 ≤ (b0 - 0xF0) * 262144 + (b1 - 0x80) * 4096 + (b2 - 0x80) * 64 + (b3 - 0x80)) :
    utf8EncodeChar ((b0 - 0xF0) * 262144 + (b1 - 0x80) * 4096 + (b2 - 0x80) * 64 + (b3 - 0x80)) =
      [b0, b1, b2, b3] := by
  rw [utf8EncodeChar]
  rw [if_neg (by omega), if_neg (by omega), if_neg (by omega)]
  simp only [List.cons.injEq, and_true]
  exact ⟨by omega, by omega, by omega, by omega⟩

theorem utf8_roundtrip_go :
    ∀ f bytes s, bytes.length ≤ f → utf8DecodeGo f bytes = some s →
      utf8Encode s = bytes := by
  intro f
  induction f with
  | zero =>
    intro bytes s hl h
    have h0 : bytes = [] := List.eq_nil_of_length_eq_zero (by omega)
    subst h0
    rw [show utf8DecodeGo 0 [] = some [] from rfl] at h
    cases h
    rfl
  | succ f ih =>
    intro bytes s hl h
    cases bytes with
    | nil =>
      rw [show utf8DecodeGo (f+1) [] = some [] from rfl] at h
      cases h
      rfl
    | cons b0 rest =>
      simp only [utf8DecodeGo] at h
      by_cases h1 : b0 < 0x80
      · rw [if_pos h1] at h
        rw [Option.map_eq_some'] at h
        obtain ⟨s', hs', hfs⟩ := h
        subst hfs
        rw [utf8Encode_cons, utf8EncodeChar_1byte b0 h1,
          ih rest s' (by simp only [List.length_cons] at hl; omega) hs']
        rfl
      · rw [if_neg h1] at h
        by_cases h2 : (0xC2 ≤ b0 && b0 ≤ 0xDF) = true
        · rw [if_pos h2] at h
          simp only [Bool.and_eq_true, decide_eq_true_eq] at h2
          cases rest with
          | nil => exact Option.noConfusion h
          | cons b1 rest2 =>
            dsimp only at h
            by_cases hc1 : utf8Cont b1 = true
            · rw [if_pos hc1] at h
              simp only [utf8Cont, Bool.and_eq_true, decide_eq_true_eq] at hc1
              rw [Option.map_eq_some'] at h
              obtain ⟨s', hs', hfs⟩ := h
              subst hfs
              rw [utf8Encode_cons,
                utf8EncodeChar_2byte b0 b1 h2.1 h2.2 hc1.1 hc1.2,
                ih rest2 s' (by simp only [List.length_cons] at hl; omega) hs']
              rfl
            · rw [if_neg hc1] at h
              exact Option.noConfusion h
        · rw [if_neg h2] at h
          by_cases h3 : (0xE0 ≤ b0 && b0 ≤ 0xEF) = true
          · rw [if_pos h3] at h
            simp only [Bool.and_eq_true, decide_eq_true_eq] at h3
            cases rest with
            | nil => exact Option.noConfusion h
            | cons b1 rtl =>
              cases rtl with
              | nil => exact Option.noConfusion h
              | cons b2 rest2 =>
                dsimp only at h
                by_cases hcc : ((if b0 = 0xE0 then 0xA0 ≤ b1 && b1 ≤ 0xBF
                    else if b0 = 0xED then 0x80 ≤ b1 && b1 ≤ 0x9F
                    else utf8Cont b1) && utf8Cont b2) = true
                · rw [if_pos hcc] at h
                  rw [Bool.and_eq_true] at hcc
                  obtain ⟨hinner, hb2⟩ := hcc
                  simp only [utf8Cont, Bool.and_eq_true, decide_eq_true_eq] at hb2
                  have hb1 : 0x80 ≤ b1 ∧ b1 ≤ 0xBF ∧
                      0x800 ≤ (b0 - 0xE0) * 4096 + (b1 - 0x80) * 64 + (b2 - 0x80) := by
                    by_cases he0 : b0 = 0xE0
                    · rw [if_pos he0] at hinner
                      simp only [Bool.and_eq_true, decide_eq_true_eq] at hinner
                      subst he0
                      exact ⟨by omega, by omega, by omega⟩
                    · rw [if_neg he0] at hinner
                      by_cases hed : b0 = 0xED
                      · rw [if_pos hed] at hinner
                        simp only [Bool.and_eq_true, decide_eq_true_eq] at hinner
                        subst hed
                        exact ⟨by omega, by omega, by omega⟩
                      · rw [if_neg hed] at hinner
                        simp only [utf8Cont, Bool.and_eq_true, decide_eq_true_eq] at hinner
                        exact ⟨hinner.1, hinner.2, by omega⟩
                  rw [Option.map_eq_some'] at h
                  obtain ⟨s', hs', hfs⟩ := h
                  subst hfs
                  rw [utf8Encode_cons,
                    utf8EncodeChar_3byte b0 b1 b2 h3.1 h3.2 hb1.1 hb1.2.1 hb2.1 hb2.2 hb1.2.2,
                    ih rest2 s' (by simp only [List.length_cons] at hl; omega) hs']
                  rfl
                · rw [if_neg hcc] at h
                  exact Option.noConfusion h
          · rw [if_neg h3] at h
            by_cases h4 : (0xF0 ≤ b0 && b0 ≤ 0xF4) = true
            · rw [if_pos h4] at h
              simp only [Bool.and_eq_true, decide_eq_true_eq] at h4
              cases rest with
              | nil => exact Option.noConfusion h
              | cons b1 rtl =>
                cases rtl with
                | nil => exact Option.noConfusion h
                | cons b2 rtl2 =>
                  cases rtl2 with
                  | nil => exact Option.noConfusion h
                  | cons b3 rest2 =>
                    dsimp only at h
                    by_cases hcc : ((if b0 = 0xF0 then 0x90 ≤ b1 && b1 ≤ 0xBF
                        else if b0 = 0xF4 then 0x80 ≤ b1 && b1 ≤ 0x8F
                        else utf8Cont b1) && utf8Cont b2 && utf8Cont b3) = true
                    · rw [if_pos hcc] at h
                      rw [Bool.and_eq_true, Bool.and_eq_true] at hcc
                      obtain ⟨⟨hinner, hb2⟩, hb3⟩ := hcc
                      simp only [utf8Cont, Bool.and_eq_true, decide_eq_true_eq] at hb2 hb3
                      have hb1 : 0x80 ≤ b1 ∧ b1 ≤ 0xBF ∧
                          0x10000 ≤ (b0 - 0xF0) * 262144 + (b1 - 0x80) * 4096 +
                            (b2 - 0x80) * 64 + (b3 - 0x80) := by
                        by_cases hf0 : b0 = 0xF0
                        · rw [if_pos hf0] at hinner
                          simp only [Bool.and_eq_true, decide_eq_true_eq] at hinner
                          subst hf0
                          exact ⟨by omega, by omega, by omega⟩
                        · rw [if_neg hf0] at hinner
                          by_cases hf4 : b0 = 0xF4
                          · rw [if_pos hf4] at hinner
                            simp only [Bool.and_eq_true, decide_eq_true_eq] at hinner
                            subst hf4
                            exact ⟨by omega, by omega, by omega⟩
                          · rw [if_neg hf4] at hinner
                            simp only [utf8Cont, Bool.and_eq_true, decide_eq_true_eq] at hinner
                            exact ⟨hinner.1, hinner.2, by omega⟩
                      rw [Option.map_eq_some'] at h
                      obtain ⟨s', hs', hfs⟩ := h
                      subst hfs
                      rw [utf8Encode_cons,
                        utf8EncodeChar_4byte b0 b1 b2 b3 h4.1 h4.2 hb1.1 hb1.2.1
                          hb2.1 hb2.2 hb3.1 hb3.2 hb1.2.2,
                        ih rest2 s' (by simp only [List.length_cons] at hl; omega) hs']
                      rfl
                    · rw [if_neg hcc] at h
                      exact Option.noConfusion h
            · rw [if_neg h4] at h
              exact Option.noConfusion h

theorem utf8_roundtrip (b : List Nat) (s : PyStr) (h : utf8Decode b = some s) :
    utf8Encode s = b :=
  utf8_roundtrip_go b.length b s (Nat.le_refl _) h

theorem findIdx_cat (A X R : PyStr) (hne : X ≠ []) (hnin : ¬ X <:+: A)
    (hbf : borderFree X) :
    pyFindIdx (A ++ (X ++ R)) X = some A.length := by
  apply pyFindIdx_eq_some
  · have h0 : occ X 0 (X ++ R) := (occ_zero _ _).mpr (List.prefix_append X R)
    have := occ_append_right X A (X ++ R) 0 h0
    rw [Nat.add_zero] at this
    exact this
  · intro q hq hocc
    rcases occ_append_split X A (X ++ R) q hocc with ⟨h1, _⟩ | ⟨h2, _⟩ | ⟨hlt, hgt, hdc, hdd⟩
    · exact hnin ((infix_iff_occ X A).mpr ⟨q, h1⟩)
    · omega
    · have hk1 : 0 < A.length - q := by omega
      have hk2 : A.length - q < X.length := by omega
      have hlen : (X.drop (A.length - q)).length ≤ X.length := by
        rw [List.length_drop]
        omega
      have hXpre : X.drop (A.length - q) <+: X :=
        (List.isPrefix_append_of_length hlen).mp hdd
      exact hbf (A.length - q) hk2 hk1 hXpre

theorem not_infix_append (p C D : PyStr) (hlen : C.length < p.length)
    (hD : ¬ p <:+: D) (hsp : noSufPre C p) : ¬ p <:+: C ++ D := by
  intro h
  rcases infix_append_split p C D h with hc | hc | ⟨k, hk0, hkp, htk, hdk⟩
  · have := hc.length_le
    omega
  · exact hD hc
  · have hkC : k ≤ C.length := by
      have := htk.length_le
      rw [List.length_take] at this
      omega
    have heq := List.suffix_iff_eq_drop.mp htk
    have hlt : (p.take k).length = k := by
      rw [List.length_take]
      omega
    rw [hlt] at heq
    have hCp : C.drop (C.length - k) <+: p := by
      rw [← heq]
      exact List.take_prefix _ _
    exact hsp (C.length - k) (by omega) hCp

/-- Claim C1: for every input byte sequence whose SHA-256 hex digest does not
equal the pinned expected digest, verification fails (`validate_sha256` exits,
modelled as `false`), the run terminates with exit code 1, no output file is
written, and the Patch Engine is never invoked — the outcome is the same for
every patch function, so `apply_patches` cannot have been consulted. -/
theorem C1_digest_gate (content : List Nat)
    (h : sha256hex content ≠ EXPECTED_SHA256) :
    validate_sha256 content EXPECTED_SHA256 = false ∧
    ∀ patchFn, mainWith patchFn content = ⟨1, none⟩ := by
  have hv : validate_sha256 content EXPECTED_SHA256 = false := by
    rw [validate_sha256]
    exact beq_eq_false_iff_ne.mpr h
  refine ⟨hv, fun patchFn => ?_⟩
  rw [mainWith, if_neg (by rw [hv]; exact Bool.false_ne_true)]

set_option maxRecDepth 20000 in
/-- Witness for C1 at the empty byte sequence. -/
theorem C1_digest_gate_witness :
    validate_sha256 [] EXPECTED_SHA256 = false ∧
    ∀ patchFn, mainWith patchFn [] = ⟨1, none⟩ :=
  C1_digest_gate [] (by decide)

set_option maxRecDepth 20000 in
/-- Claim C2 counterexample: the spec calls the literal rules (patches 1-3
cited) required, but no literal rule in the code is: here patch 1's search
string is absent from the text, yet the whole patch pipeline succeeds instead
of failing. -/
theorem C2_required_literal_counterexample :
    ¬ (pat1 <:+: (start_marker ++ pyStr "\n" ++ end_marker)) ∧
    isOk (applyPatchesCore (start_marker ++ pyStr "\n" ++ end_marker)) = true :=
  ⟨by decide, by rfl⟩

/-- Claim C2 amended: a literal rule whose search string is absent from the
input text is not required — it leaves the text unchanged (shown here for
rule 1, whose stage is `pyReplace t pat1 rep1 (some 1)`) and the run
continues; only the marker block rule can abort `apply_patches`. -/
theorem C2_required_literal_amended (t : PyStr) (h : ¬ pat1 <:+: t) :
    pyReplace t pat1 rep1 (some 1) = t :=
  pyReplace_no_occ pat1 rep1 (some 1) (by decide) t h

/-- Witness for the amended C2 on a concrete text without the pattern. -/
theorem C2_required_literal_amended_witness :
    pyReplace (pyStr "hello") pat1 rep1 (some 1) = pyStr "hello" :=
  C2_required_literal_amended (pyStr "hello") (by decide)

/-- Claim C3: if, in the text the block rule searches (the decoded text after
patches 1-14), the start marker is absent, or no end marker occurs at or
after the (first) start marker, then the run fails with the block-not-found
error (`sys.exit(1)` at line 272) and no output is written. -/
theorem C3_block_markers_fail (content : List Nat) (t : PyStr)
    (hdec : utf8Decode content = some t)
    (hbad : (¬ start_marker <:+: patches1to14 t) ∨
      (∃ i, pyFindIdx (patches1to14 t) start_marker = some i ∧
        ¬ end_marker <:+: (patches1to14 t).drop i)) :
    apply_patches content = .error .blockMarkersNotFound ∧
    (mainWith apply_patches content).written = none := by
  have hp15 : patch15 (patches1to14 t) = .error .blockMarkersNotFound := by
    rcases hbad with h | ⟨i, hfi, hni⟩
    · apply patch15_err
      left
      apply pyFind_zero_none
      cases hf : pyFindIdx (patches1to14 t) start_marker with
      | none => rfl
      | some k =>
        exact absurd ((infix_iff_occ _ _).mpr ⟨k, (pyFindIdx_some _ _ k hf).1⟩) h
    · apply patch15_err
      right
      rw [pyFind_zero_some _ _ i hfi]
      have hocc := (pyFindIdx_some _ _ i hfi).1
      have hil : i ≤ (patches1to14 t).length := by
        have := occ_length_le start_marker i _ (by decide) hocc
        omega
      rw [pyFind_nat _ end_marker i hil]
      cases hf2 : pyFindIdx ((patches1to14 t).drop i) end_marker with
      | none => rfl
      | some k =>
        exact absurd ((infix_iff_occ _ _).mpr ⟨k, (pyFindIdx_some _ _ k hf2).1⟩) hni
  have happ : apply_patches content = .error .blockMarkersNotFound := by
    simp only [apply_patches, hdec, applyPatchesCore, hp15, Except.map]
  refine ⟨happ, ?_⟩
  rw [mainWith]
  by_cases hv : validate_sha256 content EXPECTED_SHA256 = true
  · rw [if_pos hv, happ]
  · rw [if_neg hv]

set_option maxRecDepth 20000 in
/-- Witness for C3 on bytes decoding to "hello" (no markers anywhere). -/
theorem C3_block_markers_fail_witness :
    apply_patches (utf8Encode (pyStr "hello")) = .error .blockMarkersNotFound ∧
    (mainWith apply_patches (utf8Encode (pyStr "hello"))).written = none :=
  C3_block_markers_fail (utf8Encode (pyStr "hello")) (pyStr "hello") (by rfl)
    (Or.inl (by decide))

set_option maxRecDepth 20000 in
/-- Claim C6 counterexample: the Integrity Verifier does not compare digests
as case-normalized hex strings — for the empty input, whose digest equals
this uppercase expected value up to letter case, `validate_sha256` still
fails (exits), because the code compares with exact string equality. -/
theorem C6_digest_case_counterexample :
    spec_caseNormalizedEq (sha256hex [])
      "E3B0C44298FC1C149AFBF4C8996FB92427AE41E4649B934CA495991B7852B855" = true ∧
    validate_sha256 []
      "E3B0C44298FC1C149AFBF4C8996FB92427AE41E4649B934CA495991B7852B855" = false :=
  ⟨by decide, by decide⟩

/-- Claim C6 amended: `validate_sha256` succeeds exactly when the computed
lowercase hex digest is equal, as a plain string, to the expected digest —
the comparison is exact, not case-normalized. -/
theorem C6_digest_exact_equality (content : List Nat) (expected : String) :
    validate_sha256 content expected = true ↔ sha256hex content = expected := by
  rw [validate_sha256]
  exact beq_iff_eq

/-- Claim C7: the rewrite is deterministic — `apply_patches` is a pure
function of the downloaded bytes, so equal input bytes give equal outputs. -/
theorem C7_deterministic (b₁ b₂ : List Nat) (h : b₁ = b₂) :
    apply_patches b₁ = apply_patches b₂ :=
  congrArg apply_patches h

/-- Witness for C7 at a concrete input. -/
theorem C7_deterministic_witness :
    apply_patches [104, 105] = apply_patches [104, 105] :=
  C7_deterministic [104, 105] [104, 105] rfl

/-- Claim C8: decode/encode round-trips losslessly — whenever the UTF-8
decode of the downloaded bytes succeeds, re-encoding the decoded text gives
back exactly the original bytes; and when decoding fails, `apply_patches`
aborts with the decode error instead of returning a result. -/
theorem C8_decode_encode_roundtrip (content : List Nat) :
    (∀ t, utf8Decode content = some t → utf8Encode t = content) ∧
    (utf8Decode content = none → apply_patches content = .error .decodeError) := by
  constructor
  · intro t ht
    exact utf8_roundtrip content t ht
  · intro h
    simp only [apply_patches, h]

/-- Witness for C8: a valid two-byte sequence round-trips, and the lone
byte 0xFF is rejected with the decode error. -/
theorem C8_decode_encode_roundtrip_witness :
    utf8Encode [0x61, 0xE9] = [0x61, 0xC3, 0xA9] ∧
    apply_patches [0xFF] = .error .decodeError :=
  ⟨by
    have := (C8_decode_encode_roundtrip [0x61, 0xC3, 0xA9]).1 [0x61, 0xE9] (by rfl)
    exact this,
   (C8_decode_encode_roundtrip [0xFF]).2 (by rfl)⟩

set_option maxRecDepth 10000 in
/-- Claim C4: for text of the form A ++ START ++ middle ++ END ++ B where
A, middle and B do not contain the markers, the block rule replaces exactly
the span START ++ middle ++ END with the fixed new block, leaving A and B
byte-for-byte unchanged, whatever the content of middle. -/
theorem C4_block_extraction (A mid B : PyStr)
    (hA1 : ¬ start_marker <:+: A) (hA2 : ¬ end_marker <:+: A)
    (hm1 : ¬ start_marker <:+: mid) (hm2 : ¬ end_marker <:+: mid)
    (hB1 : ¬ start_marker <:+: B) (hB2 : ¬ end_marker <:+: B) :
    patch15 (A ++ start_marker ++ mid ++ end_marker ++ B) =
      .ok (A ++ new_block ++ B) := by
  have htr : A ++ start_marker ++ mid ++ end_marker ++ B =
      A ++ (start_marker ++ (mid ++ (end_marker ++ B))) := by
    simp [List.append_assoc]
  have hfs : pyFindIdx (A ++ start_marker ++ mid ++ end_marker ++ B) start_marker =
      some A.length := by
    rw [htr]
    exact findIdx_cat A start_marker (mid ++ (end_marker ++ B)) (by decide) hA1 (by decide)
  have hfind1 : pyFind (A ++ start_marker ++ mid ++ end_marker ++ B) start_marker 0 =
      (A.length : Int) := pyFind_zero_some _ start_marker _ hfs
  have hdropA : (A ++ start_marker ++ mid ++ end_marker ++ B).drop A.length =
      start_marker ++ (mid ++ (end_marker ++ B)) := by
    rw [htr]
    exact List.drop_left A _
  have hfe0 : pyFindIdx ((A ++ start_marker ++ mid ++ end_marker ++ B).drop A.length)
      end_marker = some (start_marker ++ mid).length := by
    rw [hdropA]
    rw [show start_marker ++ (mid ++ (end_marker ++ B)) =
      (start_marker ++ mid) ++ (end_marker ++ B) by simp [List.append_assoc]]
    exact findIdx_cat (start_marker ++ mid) end_marker B (by decide)
      (not_infix_append end_marker start_marker mid (by decide) hm2 (by decide)) (by decide)
  have hAlen : A.length ≤ (A ++ start_marker ++ mid ++ end_marker ++ B).length := by
    rw [htr, List.length_append]
    omega
  have hfind2 : pyFind (A ++ start_marker ++ mid ++ end_marker ++ B) end_marker
      (A.length : Int) = ((A.length + (start_marker ++ mid).length : Nat) : Int) := by
    rw [pyFind_nat _ end_marker A.length hAlen, hfe0]
  simp only [patch15]
  rw [hfind1, hfind2]
  rw [if_neg (by omega)]
  rw [Int.toNat_natCast, Int.toNat_natCast]
  have hblock : pySlice (A ++ start_marker ++ mid ++ end_marker ++ B) A.length
      (A.length + (start_marker ++ mid).length + end_marker.length) =
      start_marker ++ mid ++ end_marker := by
    rw [pySlice]
    have h1 : A ++ start_marker ++ mid ++ end_marker ++ B =
        (A ++ (start_marker ++ mid ++ end_marker)) ++ B := by
      simp [List.append_assoc]
    have hlen1 : (A ++ (start_marker ++ mid ++ end_marker)).length =
        A.length + (start_marker ++ mid).length + end_marker.length := by
      simp [List.length_append]
      omega
    rw [h1, List.take_left' hlen1]
    exact List.drop_left A _
  rw [hblock]
  have hinf : (start_marker ++ mid ++ end_marker) <:+:
      (A ++ start_marker ++ mid ++ end_marker ++ B) :=
    ⟨A, B, by simp [List.append_assoc]⟩
  rw [if_pos (pyContains_of_isSub _ _ hinf)]
  have hXne : start_marker ++ mid ++ end_marker ≠ [] := by
    intro h
    rw [List.append_assoc] at h
    rcases List.append_eq_nil.mp h with ⟨h1, _⟩
    exact (by decide : start_marker ≠ []) h1
  have hocc : occ (start_marker ++ mid ++ end_marker) A.length
      (A ++ start_marker ++ mid ++ end_marker ++ B) := by
    rw [occ, show A ++ start_marker ++ mid ++ end_marker ++ B =
      A ++ ((start_marker ++ mid ++ end_marker) ++ B) by simp [List.append_assoc],
      List.drop_left A _]
    exact List.prefix_append _ _
  have hmin : ∀ q, q < A.length →
      ¬ occ (start_marker ++ mid ++ end_marker) q
        (A ++ start_marker ++ mid ++ end_marker ++ B) := by
    intro q hq hoc
    have hMs : occ start_marker q (A ++ start_marker ++ mid ++ end_marker ++ B) := by
      rw [occ] at hoc ⊢
      exact (List.prefix_append start_marker _).trans
        (by rw [List.append_assoc] at hoc; exact hoc)
    exact (pyFindIdx_some _ start_marker A.length hfs).2 q hq hMs
  rw [pyReplace_first (start_marker ++ mid ++ end_marker) new_block A.length hXne
    _ hocc hmin]
  have htake : (A ++ start_marker ++ mid ++ end_marker ++ B).take A.length = A := by
    rw [show A ++ start_marker ++ mid ++ end_marker ++ B =
      A ++ (start_marker ++ mid ++ end_marker ++ B) by simp [List.append_assoc]]
    exact List.take_left A _
  have hdrop : (A ++ start_marker ++ mid ++ end_marker ++ B).drop
      (A.length + (start_marker ++ mid ++ end_marker).length) = B := by
    rw [show A ++ start_marker ++ mid ++ end_marker ++ B =
      (A ++ (start_marker ++ mid ++ end_marker)) ++ B by simp [List.append_assoc]]
    exact List.drop_left' (by simp [List.length_append])
  rw [htake, hdrop]

set_option maxRecDepth 20000 in
/-- Witness for C4 with A = "aa", middle = "m", B = "bb". -/
theorem C4_block_extraction_witness :
    patch15 (pyStr "aa" ++ start_marker ++ pyStr "m" ++ end_marker ++ pyStr "bb") =
      .ok (pyStr "aa" ++ new_block ++ pyStr "bb") :=
  C4_block_extraction (pyStr "aa") (pyStr "m") (pyStr "bb")
    (by decide) (by decide) (by decide) (by decide) (by decide) (by decide)

/-- Claim C5: on any text with exactly K non-overlapping occurrences of the
literal-replace-unlimited rule's pattern (patch 14), the rule reports count K
(`pyCount`, as the code computes at line 255), performs exactly K
replacements, and a second application of the same rule finds count 0. -/
theorem C5_unlimited_idempotent (t : PyStr) (K : Nat)
    (h : pyCount t pat14 = K) :
    pyReplaceCount t pat14 rep14 none = K ∧
    pyCount (pyReplace t pat14 rep14 none) pat14 = 0 := by
  constructor
  · rw [pyReplaceCount_eq_pyCount pat14 rep14 t (by decide)]
    exact h
  · refine ((pyCount_eq_zero_iff pat14 (by decide)) _).mpr ?_
    exact replaceAll_no_occ pat14 rep14 (by decide) (by decide) (by decide)
      (by decide) (by decide) t.length t (Nat.le_refl _)

set_option maxRecDepth 20000 in
/-- Witness for C5 on a text with exactly two occurrences of the pattern. -/
theorem C5_unlimited_idempotent_witness :
    pyCount (pat14 ++ pyStr "x" ++ pat14) pat14 = 2 ∧
    (pyReplaceCount (pat14 ++ pyStr "x" ++ pat14) pat14 rep14 none = 2 ∧
     pyCount (pyReplace (pat14 ++ pyStr "x" ++ pat14) pat14 rep14 none) pat14 = 0) :=
  ⟨by decide, C5_unlimited_idempotent (pat14 ++ pyStr "x" ++ pat14) 2 (by decide)⟩

/-- Claim C9: whenever both marker searches of patch 15 succeed, the
extracted block is by construction a contiguous slice of the text, so the
`old_block in text` test holds and the replacement is performed — the
"Old text not found" failure branch (line 303) is unreachable. -/
theorem C9_old_block_always_found (t : PyStr)
    (hs : pyFind t start_marker 0 ≠ -1)
    (he : pyFind t end_marker (pyFind t start_marker 0) ≠ -1) :
    patch15 t = .ok (pyReplace t
      (pySlice t (pyFind t start_marker 0).toNat
        ((pyFind t end_marker (pyFind t start_marker 0)).toNat + end_marker.length))
      new_block (some 1)) :=
  patch15_ok_branch t hs he

set_option maxRecDepth 20000 in
/-- Witness for C9 on the concatenation of the two markers. -/
theorem C9_old_block_always_found_witness :
    patch15 (start_marker ++ end_marker) = .ok (pyReplace (start_marker ++ end_marker)
      (pySlice (start_marker ++ end_marker)
        (pyFind (start_marker ++ end_marker) start_marker 0).toNat
        ((pyFind (start_marker ++ end_marker) end_marker
          (pyFind (start_marker ++ end_marker) start_marker 0)).toNat +
            end_marker.length))
      new_block (some 1)) :=
  C9_old_block_always_found (start_marker ++ end_marker) (by decide) (by decide)

set_option maxRecDepth 20000 in
/-- Claim C10 counterexample: the "only if" direction fails on the decoded
input text — here the input contains no start marker at all (it is split by
patch 3's download-URL line), yet `apply_patches` succeeds, because deleting
that line joins the halves into a marker occurrence before patch 15 runs. -/
theorem C10_success_counterexample :
    ¬ (start_marker <:+: (pyStr "// get the account" ++ pat3a ++
        pyStr " ID in cookies\n" ++ end_marker ++ pyStr "\n")) ∧
    isOk (apply_patches (utf8Encode (pyStr "// get the account" ++ pat3a ++
        pyStr " ID in cookies\n" ++ end_marker ++ pyStr "\n"))) = true :=
  ⟨by decide, by rfl⟩

/-- Claim C10 amended ("if" direction): for every valid UTF-8 input whose
decoded text contains the start marker with an end marker at or after it,
`apply_patches` returns successfully, even when none of the other patches'
search patterns occur in the text. -/
theorem C10_markers_in_order_success (content : List Nat) (t : PyStr) (i j : Nat)
    (hdec : utf8Decode content = some t) (hij : i ≤ j)
    (h1 : occ start_marker i t) (h2 : occ end_marker j t) :
    ∃ out, apply_patches content = .ok out := by
  obtain ⟨i', j', hij', h1', h2'⟩ := markers_preserved t i j hij h1 h2
  obtain ⟨u, hu⟩ := patch15_ok (patches1to14 t) i' j' hij' h1' h2'
  refine ⟨utf8Encode (patches16to19 u), ?_⟩
  simp only [apply_patches, hdec, applyPatchesCore, hu, Except.map]

set_option maxRecDepth 20000 in
/-- Witness for the amended C10: markers in order, all other patterns absent. -/
theorem C10_markers_in_order_success_witness :
    ∃ out, apply_patches (utf8Encode (start_marker ++ pyStr "\n" ++ end_marker)) =
      .ok out :=
  C10_markers_in_order_success
    (utf8Encode (start_marker ++ pyStr "\n" ++ end_marker))
    (start_marker ++ pyStr "\n" ++ end_marker) 0 33 (by rfl) (by decide)
    (by rw [occ]; decide) (by rw [occ]; decide)
